import Mathlib

/-!
# Dashboard charts of `assets/js/script.js`

A shallow embedding of the canvas charting routines (`drawLineChart`,
`drawBarChart`, `drawSparkline`) and of `initDashboards` with its refresh
timer, followed by the properties checked against them.

Numbers. The coordinates of the line chart and of the sparkline are computed
in binary64 as JavaScript does: every operation rounds its exact result to the
nearest double, ties to even, and overflows to an infinity (`Dbl`, `fl`). The
bar chart and the sample generators are computed exactly on rationals
(`JsNum`), a non-finite result being `none`; what is proved of them (the
threshold of the bar width, a zero divisor, lengths and labels) does not
depend on rounding.
-/

namespace Portfolio

/-! ## Numbers -/

/-- A JavaScript number: `some q` is the finite value `q`, `none` is a
non-finite value (`NaN` or an infinity). -/
abbrev JsNum := Option ℚ

/-- The JavaScript `a + b`: non-finite as soon as one operand is. -/
def jsAdd (a b : JsNum) : JsNum :=
  match a, b with
  | some x, some y => some (x + y)
  | _, _ => none

/-- The JavaScript `a - b`. -/
def jsSub (a b : JsNum) : JsNum :=
  match a, b with
  | some x, some y => some (x - y)
  | _, _ => none

/-- The JavaScript `a * b`. -/
def jsMul (a b : JsNum) : JsNum :=
  match a, b with
  | some x, some y => some (x * y)
  | _, _ => none

/-- The JavaScript `a / b`: dividing by zero gives `NaN` or an infinity. The
renderers divide by a non-finite value on no path that runs (their divisors
are non-finite only for an empty Series, whose loop bodies do not run), so
that case is left non-finite. -/
def jsDiv (a b : JsNum) : JsNum :=
  match a, b with
  | some x, some y => if y = 0 then none else some (x / y)
  | _, _ => none

/-- `Math.round`: the nearest integer, ties going up. -/
def jsRound (x : ℚ) : ℤ := ⌊x + 1 / 2⌋

/-- `Math.min(...data)`: `Infinity` for an empty array. -/
def mathMin : List ℚ → JsNum
  | [] => none
  | x :: xs => some (xs.foldl min x)

/-- `Math.max(...data)`: `-Infinity` for an empty array. -/
def mathMax : List ℚ → JsNum
  | [] => none
  | x :: xs => some (xs.foldl max x)

/-- What the page's host provides: `Math.sin` on finite numbers (ECMAScript
leaves its values to the implementation and fixes `sin(+0) = +0`) and the
constant `Math.PI`. -/
structure MathHost where
  sin : ℚ → ℚ
  sin_zero : sin 0 = 0
  pi : ℚ

/-! ## Binary64 arithmetic -/

/-- Round to the nearest integer, ties to the even one. -/
def roundNE (r : ℚ) : ℤ :=
  if r - ⌊r⌋ < 1 / 2 then ⌊r⌋
  else if 1 / 2 < r - ⌊r⌋ then ⌊r⌋ + 1
  else if ⌊r⌋ % 2 = 0 then ⌊r⌋ else ⌊r⌋ + 1

/-- The exponent of the unit in the last place of binary64 at `x`: 52 below
the exponent of `x`, and `-1074` in the subnormal range. -/
def ulpExp (x : ℚ) : ℤ := max (Int.log 2 |x| - 52) (-1074)

/-- Binary64 rounding of `x`, the exponent range unbounded above: the nearest
multiple of the unit in the last place, ties to even. -/
def flR (x : ℚ) : ℚ := (roundNE (x / 2 ^ ulpExp x) : ℚ) * 2 ^ ulpExp x

/-- A JavaScript number in binary64, the sign of zero left out: a finite
value, an infinity or `NaN`. -/
inductive Dbl where
  | fin (q : ℚ)
  | pinf
  | ninf
  | nan
  deriving DecidableEq

/-- Binary64 rounding of an exact result: round to nearest, ties to even,
overflowing to an infinity from `2 ^ 1024` on. -/
def fl (x : ℚ) : Dbl :=
  if 2 ^ 1024 ≤ flR x then Dbl.pinf
  else if flR x ≤ -2 ^ 1024 then Dbl.ninf
  else Dbl.fin (flR x)

/-- The rational `q` is a binary64 value: rounding leaves it as it is. -/
def IsDouble (q : ℚ) : Prop := fl q = Dbl.fin q

/-- The JavaScript `a + b` in binary64. -/
def dAdd : Dbl → Dbl → Dbl
  | Dbl.fin a, Dbl.fin b => fl (a + b)
  | Dbl.nan, _ => Dbl.nan
  | _, Dbl.nan => Dbl.nan
  | Dbl.pinf, Dbl.ninf => Dbl.nan
  | Dbl.ninf, Dbl.pinf => Dbl.nan
  | Dbl.pinf, _ => Dbl.pinf
  | _, Dbl.pinf => Dbl.pinf
  | Dbl.ninf, _ => Dbl.ninf
  | _, Dbl.ninf => Dbl.ninf

/-- The JavaScript `a - b` in binary64. -/
def dSub : Dbl → Dbl → Dbl
  | Dbl.fin a, Dbl.fin b => fl (a - b)
  | Dbl.nan, _ => Dbl.nan
  | _, Dbl.nan => Dbl.nan
  | Dbl.pinf, Dbl.pinf => Dbl.nan
  | Dbl.ninf, Dbl.ninf => Dbl.nan
  | Dbl.pinf, _ => Dbl.pinf
  | _, Dbl.ninf => Dbl.pinf
  | Dbl.ninf, _ => Dbl.ninf
  | _, Dbl.pinf => Dbl.ninf

/-- The product of an infinity of sign `neg` with the finite `a`. -/
def infTimes (neg : Bool) (a : ℚ) : Dbl :=
  if a = 0 then Dbl.nan
  else if 0 < a then (if neg then Dbl.ninf else Dbl.pinf)
  else (if neg then Dbl.pinf else Dbl.ninf)

/-- The JavaScript `a * b` in binary64. -/
def dMul : Dbl → Dbl → Dbl
  | Dbl.fin a, Dbl.fin b => fl (a * b)
  | Dbl.nan, _ => Dbl.nan
  | _, Dbl.nan => Dbl.nan
  | Dbl.fin a, Dbl.pinf => infTimes false a
  | Dbl.fin a, Dbl.ninf => infTimes true a
  | Dbl.pinf, Dbl.fin b => infTimes false b
  | Dbl.ninf, Dbl.fin b => infTimes true b
  | Dbl.pinf, Dbl.pinf => Dbl.pinf
  | Dbl.ninf, Dbl.ninf => Dbl.pinf
  | Dbl.pinf, Dbl.ninf => Dbl.ninf
  | Dbl.ninf, Dbl.pinf => Dbl.ninf

/-- The JavaScript `a / b` in binary64. A zero divisor is taken as `+0`: the
divisors of the renderers that can be zero, `max - min` and `length - 1`, are
differences of equal numbers, which are `+0`. -/
def dDiv : Dbl → Dbl → Dbl
  | Dbl.fin a, Dbl.fin b =>
    if b = 0 then (if a = 0 then Dbl.nan else if 0 < a then Dbl.pinf else Dbl.ninf)
    else fl (a / b)
  | Dbl.nan, _ => Dbl.nan
  | _, Dbl.nan => Dbl.nan
  | Dbl.fin _, Dbl.pinf => Dbl.fin 0
  | Dbl.fin _, Dbl.ninf => Dbl.fin 0
  | Dbl.pinf, Dbl.fin b => if 0 ≤ b then Dbl.pinf else Dbl.ninf
  | Dbl.ninf, Dbl.fin b => if 0 ≤ b then Dbl.ninf else Dbl.pinf
  | Dbl.pinf, Dbl.pinf => Dbl.nan
  | Dbl.pinf, Dbl.ninf => Dbl.nan
  | Dbl.ninf, Dbl.pinf => Dbl.nan
  | Dbl.ninf, Dbl.ninf => Dbl.nan

/-- The JavaScript `r || 1` on a number: `1` when `r` is falsy, that is zero
or `NaN`. -/
def dOrOne : Dbl → Dbl
  | Dbl.fin r => if r = 0 then Dbl.fin 1 else Dbl.fin r
  | Dbl.nan => Dbl.fin 1
  | Dbl.pinf => Dbl.pinf
  | Dbl.ninf => Dbl.ninf

/-- `Math.min(...data)` as a binary64 number: `Infinity` for an empty array. -/
def mathMinD (data : List ℚ) : Dbl :=
  match mathMin data with
  | some m => Dbl.fin m
  | none => Dbl.pinf

/-- `Math.max(...data)` as a binary64 number: `-Infinity` for an empty array. -/
def mathMaxD (data : List ℚ) : Dbl :=
  match mathMax data with
  | some m => Dbl.fin m
  | none => Dbl.ninf

/-- The argument a context command receives: the finite value, or `none` for a
non-finite one. -/
def toJs : Dbl → JsNum
  | Dbl.fin q => some q
  | _ => none

/-- The integer `Math.round` gives on a finite number. -/
def roundedOf : Dbl → Option ℤ
  | Dbl.fin q => some (jsRound q)
  | _ => none

/-! ## Surfaces and drawing commands -/

/-- A canvas element with an available 2D context. -/
structure Canvas where
  width : ℚ
  height : ℚ
  deriving DecidableEq

/-- The document: `document.getElementById`. -/
abbrev Dom := String → Option Canvas

/-- The text handed to `fillText`. -/
inductive Text where
  /-- a string -/
  | str (s : String)
  /-- the decimal text of a rounded number, `Math.round(n) + ''` -/
  | num (n : Option ℤ)
  deriving DecidableEq

/-- A call on (or an assignment to) the 2D context. -/
inductive Cmd where
  | clearRect (x y w h : JsNum)
  | createLinearGradient (x0 y0 x1 y1 : JsNum)
  | addColorStop (offset : ℚ) (color : String)
  | beginPath
  | closePath
  | moveTo (x y : JsNum)
  | lineTo (x y : JsNum)
  | arc (x y r a0 a1 : JsNum)
  | fill
  | stroke
  | fillStyle (color : String)
  | fillStyleGradient
  | strokeStyle (color : String)
  | lineWidth (v : ℚ)
  | font (f : String)
  | fillRect (x y w h : JsNum)
  | strokeRect (x y w h : JsNum)
  | fillText (t : Text) (x y : JsNum)
  deriving DecidableEq

/-- A point of the line chart, `{ x, y }`. -/
structure Point where
  x : Dbl
  y : Dbl
  deriving DecidableEq

/-- What one call of a draw routine did: the context commands it issued, in
order, and whether it ended by throwing. -/
structure DrawResult where
  cmds : List Cmd
  threw : Bool
  deriving DecidableEq

/-! ## drawLineChart -/

/-- The `pad` of `drawLineChart` and `drawBarChart`. -/
def pad : ℚ := 32

/-- The `min` of `drawLineChart`: `Math.min(...data) - 6`. -/
def lineMin (data : List ℚ) : Dbl := dSub (mathMinD data) (Dbl.fin 6)

/-- The `max` of `drawLineChart`: `Math.max(...data) + 6`. -/
def lineMax (data : List ℚ) : Dbl := dAdd (mathMaxD data) (Dbl.fin 6)

/-- The `range` of `drawLineChart`: `max - min`. -/
def lineRange (data : List ℚ) : Dbl := dSub (lineMax data) (lineMin data)

/-- The `stepX` of `drawLineChart`: `(w - pad * 2) / (data.length - 1)`. -/
def lineStepX (w : ℚ) (data : List ℚ) : Dbl :=
  dDiv (dSub (Dbl.fin w) (dMul (Dbl.fin pad) (Dbl.fin 2)))
    (dSub (Dbl.fin (data.length : ℚ)) (Dbl.fin 1))

/-- The normalised fraction `(v - min) / range` of `drawLineChart`. -/
def lineFrac (data : List ℚ) (v : ℚ) : Dbl :=
  dDiv (dSub (Dbl.fin v) (lineMin data)) (lineRange data)

/-- The `x` of point `i`: `pad + i * stepX`. -/
def lineX (w : ℚ) (data : List ℚ) (i : ℕ) : Dbl :=
  dAdd (Dbl.fin pad) (dMul (Dbl.fin (i : ℚ)) (lineStepX w data))

/-- The `y` of a sample `v`: `pad + (1 - (v - min) / range) * (h - pad * 2)`. -/
def lineY (h : ℚ) (data : List ℚ) (v : ℚ) : Dbl :=
  dAdd (Dbl.fin pad)
    (dMul (dSub (Dbl.fin 1) (lineFrac data v))
      (dSub (Dbl.fin h) (dMul (Dbl.fin pad) (Dbl.fin 2))))

/-- The `pts` of `drawLineChart`: `data.map((v, i) => ({ x, y }))`. -/
def linePts (w h : ℚ) (data : List ℚ) : List Point :=
  data.mapIdx (fun i v => { x := lineX w data i, y := lineY h data v })

/-- The last element of `pts`, `pts[pts.length - 1]`; the default is not
reached, the caller having a first point. -/
def lastPt (p0 : Point) (rest : List Point) : Point := (p0 :: rest).getLast (by simp)

/-- The routine `drawLineChart(id, data, labels)`; `labels` is not read. -/
def drawLineChart (host : MathHost) (dom : Dom) (id : String) (data : List ℚ)
    (_labels : List ℚ) : DrawResult :=
  match dom id with
  | none => { cmds := [], threw := false }
  | some canvas =>
    let w := canvas.width
    let h := canvas.height
    let pts := linePts w h data
    let base := toJs (dSub (Dbl.fin h) (Dbl.fin pad))
    let head : List Cmd :=
      [ Cmd.clearRect (some 0) (some 0) (some w) (some h),
        Cmd.createLinearGradient (some 0) (some 0) (some 0) (some h),
        Cmd.addColorStop 0 "rgba(155,92,255,0.14)",
        Cmd.addColorStop 1 "rgba(6,182,212,0.02)",
        Cmd.beginPath ]
    match pts with
    | [] => { cmds := head, threw := true }
    | p0 :: rest =>
      let area : List Cmd :=
        [Cmd.moveTo (toJs p0.x) base]
          ++ pts.map (fun p => Cmd.lineTo (toJs p.x) (toJs p.y))
          ++ [ Cmd.lineTo (toJs (lastPt p0 rest).x) base,
               Cmd.closePath, Cmd.fillStyleGradient, Cmd.fill ]
      let line : List Cmd :=
        [Cmd.beginPath, Cmd.moveTo (toJs p0.x) (toJs p0.y)]
          ++ rest.map (fun p => Cmd.lineTo (toJs p.x) (toJs p.y))
          ++ [Cmd.strokeStyle "#06f2f3", Cmd.lineWidth (13 / 5), Cmd.stroke]
      let dots : List Cmd :=
        pts.flatMap (fun p =>
          [ Cmd.beginPath,
            Cmd.arc (toJs p.x) (toJs p.y) (some 3) (some 0)
              (toJs (dMul (Dbl.fin host.pi) (Dbl.fin 2))),
            Cmd.fillStyle "#fff", Cmd.fill, Cmd.closePath ])
      let axes : List Cmd :=
        [ Cmd.fillStyle "rgba(255,255,255,0.12)",
          Cmd.font "11px Inter, sans-serif",
          Cmd.fillText (Text.num (roundedOf (lineMin data))) (some 6)
            (toJs (dAdd (dSub (Dbl.fin h) (Dbl.fin pad)) (Dbl.fin 8))),
          Cmd.fillText (Text.num (roundedOf (lineMax data))) (some 6)
            (toJs (dAdd (Dbl.fin pad) (Dbl.fin 6))) ]
      { cmds := head ++ area ++ line ++ dots ++ axes, threw := false }

/-! ## drawBarChart -/

/-- The `max` of `drawBarChart`: `Math.max(...data) + 6`. -/
def barMax (data : List ℚ) : JsNum := jsAdd (mathMax data) (some 6)

/-- The `barW` of `drawBarChart`: `(w - pad * 2) / data.length - 12`. -/
def barW (w : ℚ) (data : List ℚ) : JsNum :=
  jsSub (jsDiv (some (w - pad * 2)) (some (data.length : ℚ))) (some 12)

/-- The `x` of bar `i`: `pad + i * (barW + 12)`. -/
def barX (w : ℚ) (data : List ℚ) (i : ℕ) : JsNum :=
  jsAdd (some pad) (jsMul (some (i : ℚ)) (jsAdd (barW w data) (some 12)))

/-- The `barH` of a sample `v`: `(v / max) * (h - pad * 2)`. -/
def barH (h : ℚ) (data : List ℚ) (v : ℚ) : JsNum :=
  jsMul (jsDiv (some v) (barMax data)) (some (h - pad * 2))

/-- The label under bar `i`: `labels[i]`, or the template string f-then-index
when `labels[i]` is falsy, that is missing (`undefined`) or the empty string. -/
def barLabel (labels : List String) (i : ℕ) : String :=
  match labels[i]? with
  | some s => if s = "" then "f" ++ toString i else s
  | none => "f" ++ toString i

/-- The commands of one pass of the `forEach` body of `drawBarChart`. -/
def barCmds (w h : ℚ) (data : List ℚ) (labels : List String) (i : ℕ) (v : ℚ) : List Cmd :=
  let x := barX w data i
  let top := jsSub (some (h - pad)) (barH h data v)
  [ Cmd.fillStyle "rgba(155,92,255,0.12)",
    Cmd.fillRect x top (barW w data) (barH h data v),
    Cmd.strokeStyle "#06f2f3",
    Cmd.lineWidth 2,
    Cmd.strokeRect x top (barW w data) (barH h data v),
    Cmd.fillStyle "#dfe9ff",
    Cmd.font "11px Inter, sans-serif",
    Cmd.fillText (Text.str (barLabel labels i)) x (some (h - pad + 14)) ]

/-- The routine `drawBarChart(id, data, labels)`. -/
def drawBarChart (dom : Dom) (id : String) (data : List ℚ) (labels : List String) :
    DrawResult :=
  match dom id with
  | none => { cmds := [], threw := false }
  | some canvas =>
    let w := canvas.width
    let h := canvas.height
    { cmds := Cmd.clearRect (some 0) (some 0) (some w) (some h)
        :: (data.mapIdx (fun i v => barCmds w h data labels i v)).flatten,
      threw := false }

/-! ## drawSparkline -/

/-- The `pad` of `drawSparkline`. -/
def sparkPad : ℚ := 6

/-- The `range` of `drawSparkline`: `max - min || 1`. -/
def sparkRange (arr : List ℚ) : Dbl := dOrOne (dSub (mathMaxD arr) (mathMinD arr))

/-- The `stepX` of `drawSparkline`: `(w - pad * 2) / (arr.length - 1)`. -/
def sparkStepX (w : ℚ) (arr : List ℚ) : Dbl :=
  dDiv (dSub (Dbl.fin w) (dMul (Dbl.fin sparkPad) (Dbl.fin 2)))
    (dSub (Dbl.fin (arr.length : ℚ)) (Dbl.fin 1))

/-- The normalised fraction `(arr[i] - min) / range` of `drawSparkline`. -/
def sparkFrac (arr : List ℚ) (v : ℚ) : Dbl :=
  dDiv (dSub (Dbl.fin v) (mathMinD arr)) (sparkRange arr)

/-- The `x` of sample `i`: `pad + i * stepX`. -/
def sparkX (w : ℚ) (arr : List ℚ) (i : ℕ) : Dbl :=
  dAdd (Dbl.fin sparkPad) (dMul (Dbl.fin (i : ℚ)) (sparkStepX w arr))

/-- The `y` of a sample `v`: `pad + (1 - (v - min) / range) * (h - pad * 2)`. -/
def sparkY (h : ℚ) (arr : List ℚ) (v : ℚ) : Dbl :=
  dAdd (Dbl.fin sparkPad)
    (dMul (dSub (Dbl.fin 1) (sparkFrac arr v))
      (dSub (Dbl.fin h) (dMul (Dbl.fin sparkPad) (Dbl.fin 2))))

/-- The points the loop of `drawSparkline` visits, in order. -/
def sparkPts (w h : ℚ) (arr : List ℚ) : List Point :=
  arr.mapIdx (fun i v => { x := sparkX w arr i, y := sparkY h arr v })

/-- The path commands of the loop: `moveTo` for the first point, `lineTo` for
the others. -/
def sparkPath : List Point → List Cmd
  | [] => []
  | p0 :: rest =>
    Cmd.moveTo (toJs p0.x) (toJs p0.y) :: rest.map (fun p => Cmd.lineTo (toJs p.x) (toJs p.y))

/-- The routine `drawSparkline(id, arr)`. -/
def drawSparkline (dom : Dom) (id : String) (arr : List ℚ) : DrawResult :=
  match dom id with
  | none => { cmds := [], threw := false }
  | some canvas =>
    let w := canvas.width
    let h := canvas.height
    { cmds := [Cmd.clearRect (some 0) (some 0) (some w) (some h), Cmd.beginPath]
        ++ sparkPath (sparkPts w h arr)
        ++ [Cmd.strokeStyle "#ff66cc", Cmd.lineWidth (9 / 5), Cmd.stroke],
      threw := false }

/-! ## initDashboards and its refresh timer -/

/-- The pseudo-random source: draw number `k` of `Math.random()`. -/
abbrev Rand := ℕ → ℚ

/-- One call of a draw routine: the surface identifier, the Series passed and
what the call did. -/
structure Call where
  id : String
  data : List ℚ
  out : DrawResult
  deriving DecidableEq

/-- The state the timer callback closes over, with the number of
`Math.random()` draws made so far and the draw calls made so far. -/
structure Dash where
  timestamps : List ℚ
  perf : List ℚ
  importance : List ℚ
  spark : List ℚ
  draws : ℕ
  calls : List Call
  deriving DecidableEq

/-- A fresh sample of the line-chart Series at sine argument `n / 3`:
`70 + Math.round(10 * Math.sin(n / 3) + Math.random() * 6)`. -/
def perfSample (host : MathHost) (n : ℕ) (r : ℚ) : ℚ :=
  70 + (jsRound (10 * host.sin ((n : ℚ) / 3) + r * 6) : ℚ)

/-- The sample the sparkline Series is seeded with at index `i`:
`40 + Math.round(18 * Math.sin(i / 5) + Math.random() * 6)`. -/
def sparkSeed (host : MathHost) (i : ℕ) (r : ℚ) : ℚ :=
  40 + (jsRound (18 * host.sin ((i : ℚ) / 5) + r * 6) : ℚ)

/-- The sample the timer writes to `spark[i]`:
`40 + Math.round(18 * Math.sin((i + Math.random()) / 5) + Math.random() * 6)`,
`r1` being the first draw and `r2` the second. -/
def sparkSample (host : MathHost) (i : ℕ) (r1 r2 : ℚ) : ℚ :=
  40 + (jsRound (18 * host.sin (((i : ℚ) + r1) / 5) + r2 * 6) : ℚ)

/-- The loop `for (i = 0; i < spark.length; i++) spark[i] = ...` from index
`i` on, `k` draws having been made: each pass overwrites one element and makes
two draws. -/
def sparkLoop (host : MathHost) (rnd : Rand) : ℕ → ℕ → List ℚ → List ℚ
  | _, _, [] => []
  | i, k, _ :: rest =>
    sparkSample host i (rnd k) (rnd (k + 1)) :: sparkLoop host rnd (i + 1) (k + 2) rest

/-- The literal Labels of the bar chart. -/
def featLabels : List String :=
  ["feat_a", "feat_b", "feat_c", "feat_d", "feat_e", "feat_f", "feat_g", "feat_h",
   "feat_i", "feat_j"]

/-- The `timestamps` of `initDashboards` at time `now`: thirty daily stamps,
`now - (29 - i) * 24 * 3600 * 1000`. -/
def initTimestamps (now : ℚ) : List ℚ :=
  (List.range 30).map (fun (i : ℕ) => now - (29 - (i : ℚ)) * 24 * 3600 * 1000)

/-- The seed of the line-chart Series, `timestamps.map((t, i) => ...)`: one
sample and one draw per timestamp. -/
def initPerf (host : MathHost) (rnd : Rand) (timestamps : List ℚ) : List ℚ :=
  timestamps.mapIdx (fun i _ => perfSample host i (rnd i))

/-- The literal bar-chart Series. -/
def importance : List ℚ := [12, 8, 5, 20, 6, 4, 18, 9, 11, 7]

/-- The seed of the sparkline Series, `new Array(64).fill(0).map((_, i) => ...)`,
`k` draws having been made before. -/
def initSpark (host : MathHost) (rnd : Rand) (k : ℕ) : List ℚ :=
  (List.replicate 64 (0 : ℚ)).mapIdx (fun i _ => sparkSeed host i (rnd (k + i)))

/-- The routine `initDashboards()` up to the registration of the timer, at
time `now`. A draw call that throws ends the routine there. -/
def initDashboards (host : MathHost) (dom : Dom) (rnd : Rand) (now : ℚ) : Dash :=
  let timestamps := initTimestamps now
  let perf := initPerf host rnd timestamps
  let spark := initSpark host rnd perf.length
  let c1 : Call := ⟨"lineChart", perf, drawLineChart host dom "lineChart" perf timestamps⟩
  let c2 : Call := ⟨"barChart", importance, drawBarChart dom "barChart" importance featLabels⟩
  let c3 : Call := ⟨"sparkChart", spark, drawSparkline dom "sparkChart" spark⟩
  let calls := if c1.out.threw then [c1] else [c1, c2, c3]
  { timestamps := timestamps, perf := perf, importance := importance, spark := spark,
    draws := perf.length + spark.length, calls := calls }

/-- Whether `initDashboards` reaches `setInterval`, that is no draw call of it
throws. -/
def timerSet (host : MathHost) (dom : Dom) (rnd : Rand) (now : ℚ) : Bool :=
  (initDashboards host dom rnd now).calls.all (fun c => !c.out.threw)

/-- The `perf.shift(); perf.push(...)` of the timer callback: `shift` drops
the first element (and does nothing to an empty array), `push` appends a sample
computed from the length after the shift and one draw `r`. -/
def rollPerf (host : MathHost) (perf : List ℚ) (r : ℚ) : List ℚ :=
  perf.tail ++ [perfSample host perf.tail.length r]

/-- One run of the timer callback. A throwing `drawLineChart` ends the run
before the sparkline is touched. -/
def tick (host : MathHost) (dom : Dom) (rnd : Rand) (s : Dash) : Dash :=
  let perf := rollPerf host s.perf (rnd s.draws)
  let c1 : Call := ⟨"lineChart", perf, drawLineChart host dom "lineChart" perf s.timestamps⟩
  if c1.out.threw then
    { s with perf := perf, draws := s.draws + 1, calls := s.calls ++ [c1] }
  else
    let spark := sparkLoop host rnd 0 (s.draws + 1) s.spark
    let c2 : Call := ⟨"sparkChart", spark, drawSparkline dom "sparkChart" spark⟩
    { s with perf := perf, spark := spark, draws := s.draws + 1 + 2 * s.spark.length,
             calls := s.calls ++ [c1, c2] }

/-- The state after `n` runs of the timer callback. -/
def ticks (host : MathHost) (dom : Dom) (rnd : Rand) (now : ℚ) : ℕ → Dash
  | 0 => initDashboards host dom rnd now
  | n + 1 => tick host dom rnd (ticks host dom rnd now n)

/-! ## Sample inputs and derived notions -/

/-- The Series of the end-to-end check of the line chart. -/
def sampleSeries : List ℚ := [70, 75, 80, 75, 70]

/-- A Series of two doubles whose difference overflows: `-2 ^ 1023` and
`2 ^ 1023`. -/
def hugeSeries : List ℚ := [-2 ^ 1023, 2 ^ 1023]

/-- A Series of three doubles, two of them closer than the arithmetic of the
line chart resolves: `0`, `2 ^ (-70)` and `4`. -/
def tinySeries : List ℚ := [0, 1 / 2 ^ 70, 4]

/-- A constant Series whose value, `2 ^ 57`, absorbs the margin of 6. -/
def absorbingSeries : List ℚ := [2 ^ 57, 2 ^ 57]

/-- A Series of two samples, `0` and `12`. -/
def pairSeries : List ℚ := [0, 12]

/-- A document holding the three dashboard canvases, 300 by 150. -/
def sampleDom : Dom := fun id =>
  if id = "lineChart" ∨ id = "barChart" ∨ id = "sparkChart" then some ⟨300, 150⟩ else none

/-- A host for concrete evaluations: the sine by its Taylor polynomial of
degree five (within `2 / 10 ^ 11` of the sine at `1 / 10`, the one argument
other than `0` it is evaluated at below) and `355 / 113` for `Math.PI`. -/
def sampleHost : MathHost where
  sin := fun x => x - x ^ 3 / 6 + x ^ 5 / 120
  sin_zero := by norm_num
  pi := 355 / 113

/-- A pseudo-random source for concrete evaluations: `3 / 10` at draw 30,
otherwise `1 / 100` at even draws and `1 / 2` at odd ones. -/
def sampleRand : Rand := fun k => if k = 30 then 3 / 10 else if k % 2 = 0 then 1 / 100 else 1 / 2

/-- A timer state for concrete evaluations. -/
def sampleDash : Dash :=
  { timestamps := [], perf := sampleSeries, importance := [], spark := [40, 41],
    draws := 0, calls := [] }

/-- The texts of the `fillText` commands of a command list, in order. -/
def fillTexts : List Cmd → List Text
  | [] => []
  | Cmd.fillText t _ _ :: rest => t :: fillTexts rest
  | _ :: rest => fillTexts rest

/-- The sparkline as the specification words it: the normalisation of the line
chart (against `[min - 6, max + 6]`) and no padding, the points running from
`x = 0` to `x = w` over the full height. -/
def specSparkPts (w h : ℚ) (arr : List ℚ) : List Point :=
  arr.mapIdx (fun i v =>
    { x := dMul (Dbl.fin (i : ℚ))
        (dDiv (Dbl.fin w) (dSub (Dbl.fin (arr.length : ℚ)) (Dbl.fin 1))),
      y := dMul (dSub (Dbl.fin 1) (lineFrac arr v)) (Dbl.fin h) })

/-- The value `drawLineChart` computes for `y` from the finite `min`, the
finite `range` and the plot height `ph = h - pad * 2`, every operation
rounded. -/
def lineYR (mn range ph v : ℚ) : ℚ :=
  flR (pad + flR (flR (1 - flR (flR (v - mn) / range)) * ph))

/-- The sizes the Series keep and what holds of every draw call made. -/
def SizesOk (s : Dash) : Prop :=
  s.perf.length = 30 ∧ s.importance.length = 10 ∧ s.spark.length = 64 ∧
    ∀ c ∈ s.calls, 2 ≤ c.data.length ∧ (c.data.length : ℚ) - 1 ≠ 0 ∧ c.out.threw = false

/-! ## Binary64 rounding: monotonicity, exactness, error -/

theorem roundNE_int (n : ℤ) : roundNE (n : ℚ) = n := by
  simp [roundNE]

theorem roundNE_ge_floor (r : ℚ) : ⌊r⌋ ≤ roundNE r := by
  unfold roundNE
  split_ifs <;> omega

theorem roundNE_le_floor_succ (r : ℚ) : roundNE r ≤ ⌊r⌋ + 1 := by
  unfold roundNE
  split_ifs <;> omega

theorem roundNE_mono {r s : ℚ} (h : r ≤ s) : roundNE r ≤ roundNE s := by
  have hf : ⌊r⌋ ≤ ⌊s⌋ := Int.floor_mono h
  rcases lt_or_eq_of_le hf with hlt | heq
  · calc roundNE r ≤ ⌊r⌋ + 1 := roundNE_le_floor_succ r
      _ ≤ ⌊s⌋ := hlt
      _ ≤ roundNE s := roundNE_ge_floor s
  · unfold roundNE
    rw [← heq]
    have hd : r - ⌊r⌋ ≤ s - ⌊r⌋ := by linarith
    split_ifs <;> first | omega | (exfalso; linarith)

theorem roundNE_close (r : ℚ) : |(roundNE r : ℚ) - r| ≤ 1 / 2 := by
  have h1 := Int.floor_le r
  have h2 := Int.lt_floor_add_one r
  unfold roundNE
  rw [abs_le]
  split_ifs <;> push_cast <;> constructor <;> linarith

theorem roundNE_eq_of_abs_lt (r : ℚ) (k : ℤ) (h : |r - k| < 1 / 2) : roundNE r = k := by
  rw [abs_lt] at h
  have h1 : roundNE (k - 1 / 2 : ℚ) ≤ roundNE r := roundNE_mono (by linarith)
  have h2 : roundNE r ≤ roundNE (k + 1 / 2 : ℚ) := roundNE_mono (by linarith)
  have hc := roundNE_close r
  rw [abs_le] at hc
  have l1 : (k : ℚ) - 1 < roundNE r := by linarith
  have l2 : (roundNE r : ℚ) < k + 1 := by linarith
  have l1' : k - 1 < roundNE r := by exact_mod_cast l1
  have l2' : roundNE r < k + 1 := by exact_mod_cast l2
  omega

theorem two_zpow_pos (e : ℤ) : (0 : ℚ) < 2 ^ e := zpow_pos (by norm_num) e

theorem ulpExp_ge (x : ℚ) : -1074 ≤ ulpExp x := le_max_right _ _

theorem ulpExp_ge_log (x : ℚ) : Int.log 2 |x| - 52 ≤ ulpExp x := le_max_left _ _

theorem ulpExp_cases (x : ℚ) :
    ulpExp x = Int.log 2 |x| - 52 ∨ (ulpExp x = -1074 ∧ Int.log 2 |x| - 52 ≤ -1074) := by
  unfold ulpExp
  rcases le_total (Int.log 2 |x| - 52) (-1074) with h | h
  · right; exact ⟨max_eq_right h, h⟩
  · left; exact max_eq_left h

theorem log_le_abs (x : ℚ) (hx : x ≠ 0) : (2 : ℚ) ^ Int.log 2 |x| ≤ |x| := by
  have := Int.zpow_log_le_self (b := 2) (r := |x|) (by norm_num) (abs_pos.mpr hx)
  simpa using this

theorem abs_lt_log_succ (x : ℚ) : |x| < (2 : ℚ) ^ (Int.log 2 |x| + 1) := by
  have := Int.lt_zpow_succ_log_self (b := 2) (by norm_num) |x|
  simpa using this

theorem log_abs_mono {x y : ℚ} (hx : x ≠ 0) (h : |x| ≤ |y|) :
    Int.log 2 |x| ≤ Int.log 2 |y| :=
  Int.log_mono_right (abs_pos.mpr hx) h

/-- Rounding does not cross a multiple of the unit in the last place. -/
theorem flR_le_grid (x : ℚ) (k : ℤ) (h : x ≤ k * 2 ^ ulpExp x) : flR x ≤ k * 2 ^ ulpExp x := by
  have hp := two_zpow_pos (ulpExp x)
  have h1 : x / 2 ^ ulpExp x ≤ (k : ℚ) := by rwa [div_le_iff₀ hp]
  have h2 : roundNE (x / 2 ^ ulpExp x) ≤ k := by
    have := roundNE_mono h1
    rwa [roundNE_int] at this
  unfold flR
  exact mul_le_mul_of_nonneg_right (by exact_mod_cast h2) hp.le

theorem grid_le_flR (x : ℚ) (k : ℤ) (h : k * 2 ^ ulpExp x ≤ x) : k * 2 ^ ulpExp x ≤ flR x := by
  have hp := two_zpow_pos (ulpExp x)
  have h1 : (k : ℚ) ≤ x / 2 ^ ulpExp x := by rwa [le_div_iff₀ hp]
  have h2 : k ≤ roundNE (x / 2 ^ ulpExp x) := by
    have := roundNE_mono h1
    rwa [roundNE_int] at this
  unfold flR
  exact mul_le_mul_of_nonneg_right (by exact_mod_cast h2) hp.le

theorem zpow_grid (e j : ℤ) (hj : e ≤ j) : ∃ k : ℤ, (2 : ℚ) ^ j = k * 2 ^ e := by
  obtain ⟨n, hn⟩ := Int.eq_ofNat_of_zero_le (sub_nonneg.mpr hj)
  refine ⟨2 ^ n, ?_⟩
  have : j = (n : ℤ) + e := by omega
  rw [this, zpow_add₀ (by norm_num), zpow_natCast]
  push_cast
  ring

theorem flR_le_zpow (x : ℚ) (j : ℤ) (hj : ulpExp x ≤ j) (h : x ≤ 2 ^ j) : flR x ≤ 2 ^ j := by
  obtain ⟨k, hk⟩ := zpow_grid (ulpExp x) j hj
  rw [hk] at h ⊢
  exact flR_le_grid x k h

theorem zpow_le_flR (x : ℚ) (j : ℤ) (hj : ulpExp x ≤ j) (h : 2 ^ j ≤ x) : 2 ^ j ≤ flR x := by
  obtain ⟨k, hk⟩ := zpow_grid (ulpExp x) j hj
  rw [hk] at h ⊢
  exact grid_le_flR x k h

theorem flR_le_neg_zpow (x : ℚ) (j : ℤ) (hj : ulpExp x ≤ j) (h : x ≤ -2 ^ j) :
    flR x ≤ -2 ^ j := by
  obtain ⟨k, hk⟩ := zpow_grid (ulpExp x) j hj
  have e : -(2 : ℚ) ^ j = ((-k : ℤ) : ℚ) * 2 ^ ulpExp x := by rw [hk]; push_cast; ring
  rw [e] at h ⊢
  exact flR_le_grid x (-k) h

theorem neg_zpow_le_flR (x : ℚ) (j : ℤ) (hj : ulpExp x ≤ j) (h : -2 ^ j ≤ x) :
    -2 ^ j ≤ flR x := by
  obtain ⟨k, hk⟩ := zpow_grid (ulpExp x) j hj
  have e : -(2 : ℚ) ^ j = ((-k : ℤ) : ℚ) * 2 ^ ulpExp x := by rw [hk]; push_cast; ring
  rw [e] at h ⊢
  exact grid_le_flR x (-k) h

theorem flR_nonneg {x : ℚ} (h : 0 ≤ x) : 0 ≤ flR x := by
  have := grid_le_flR x 0 (by simpa using h)
  simpa using this

theorem flR_nonpos {x : ℚ} (h : x ≤ 0) : flR x ≤ 0 := by
  have := flR_le_grid x 0 (by simpa using h)
  simpa using this

theorem flR_mono_same {x y : ℚ} (h : x ≤ y) (he : ulpExp x = ulpExp y) : flR x ≤ flR y := by
  unfold flR
  rw [he]
  have hp := two_zpow_pos (ulpExp y)
  have : x / 2 ^ ulpExp y ≤ y / 2 ^ ulpExp y := div_le_div_of_nonneg_right h hp.le
  exact mul_le_mul_of_nonneg_right (by exact_mod_cast roundNE_mono this) hp.le

/-- Binary64 rounding is monotone. -/
theorem flR_mono {x y : ℚ} (h : x ≤ y) : flR x ≤ flR y := by
  rcases le_or_lt x 0 with hx | hx
  · rcases le_or_lt 0 y with hy | hy
    · exact le_trans (flR_nonpos hx) (flR_nonneg hy)
    · -- x ≤ y < 0
      have hy0 : y ≠ 0 := hy.ne
      have hx0 : x ≠ 0 := (lt_of_le_of_lt h hy).ne
      have habs : |y| ≤ |x| := by
        rw [abs_of_neg hy, abs_of_neg (lt_of_le_of_lt h hy)]; linarith
      have hL := log_abs_mono hy0 habs
      rcases eq_or_ne (ulpExp x) (ulpExp y) with he | hne
      · exact flR_mono_same h he
      · have hxl := log_le_abs x hx0
        have hyl := abs_lt_log_succ y
        have hax : |x| = -x := abs_of_neg (lt_of_le_of_lt h hy)
        have hay : |y| = -y := abs_of_neg hy
        have c1 := ulpExp_cases x
        have c2 := ulpExp_cases y
        have g1 := ulpExp_ge x
        have g2 := ulpExp_ge y
        have hlt : Int.log 2 |y| + 1 ≤ Int.log 2 |x| := by omega
        have hpow : (2 : ℚ) ^ (Int.log 2 |y| + 1) ≤ 2 ^ Int.log 2 |x| :=
          zpow_le_zpow_right₀ (by norm_num) hlt
        have a1 : flR x ≤ -2 ^ Int.log 2 |x| :=
          flR_le_neg_zpow x _ (by omega) (by linarith)
        have a2 : -2 ^ Int.log 2 |x| ≤ flR y :=
          neg_zpow_le_flR y _ (by omega) (by linarith)
        exact le_trans a1 a2
  · -- 0 < x ≤ y
    have hy : 0 < y := lt_of_lt_of_le hx h
    have hx0 : x ≠ 0 := hx.ne'
    have habs : |x| ≤ |y| := by rw [abs_of_pos hx, abs_of_pos hy]; exact h
    have hL := log_abs_mono hx0 habs
    rcases eq_or_ne (ulpExp x) (ulpExp y) with he | hne
    · exact flR_mono_same h he
    · have hyl := log_le_abs y hy.ne'
      have hxl := abs_lt_log_succ x
      have hax : |x| = x := abs_of_pos hx
      have hay : |y| = y := abs_of_pos hy
      have c1 := ulpExp_cases x
      have c2 := ulpExp_cases y
      have g1 := ulpExp_ge x
      have g2 := ulpExp_ge y
      have hlt : Int.log 2 |x| + 1 ≤ Int.log 2 |y| := by omega
      have hpow : (2 : ℚ) ^ (Int.log 2 |x| + 1) ≤ 2 ^ Int.log 2 |y| :=
        zpow_le_zpow_right₀ (by norm_num) hlt
      have a1 : flR x ≤ 2 ^ Int.log 2 |y| := flR_le_zpow x _ (by omega) (by linarith)
      have a2 : 2 ^ Int.log 2 |y| ≤ flR y := zpow_le_flR y _ (by omega) (by linarith)
      exact le_trans a1 a2

theorem flR_zero : flR 0 = 0 := by
  simp [flR, roundNE]

theorem log_eq_of_bounds (x : ℚ) (L : ℤ) (h1 : (2 : ℚ) ^ L ≤ |x|) (h2 : |x| < 2 ^ (L + 1)) :
    Int.log 2 |x| = L := by
  have hpos : 0 < |x| := lt_of_lt_of_le (two_zpow_pos L) h1
  have a : L ≤ Int.log 2 |x| :=
    (Int.zpow_le_iff_le_log (b := 2) (by norm_num) hpos).mp (by simpa using h1)
  have b : Int.log 2 |x| < L + 1 :=
    (Int.lt_zpow_iff_log_lt (b := 2) (by norm_num) hpos).mp (by simpa using h2)
  omega

theorem flR_of_grid (x : ℚ) (k : ℤ) (hx : x = k * 2 ^ ulpExp x) : flR x = x := by
  have hp := (two_zpow_pos (ulpExp x)).ne'
  have hq : x / 2 ^ ulpExp x = (k : ℚ) := by
    rw [div_eq_iff hp]
    exact hx
  unfold flR
  rw [hq, roundNE_int]
  exact hx.symm

/-- A multiple `m * 2 ^ e` with `|m| < 2 ^ 53` and `e` no less than `-1074` is
left as it is by rounding. -/
theorem flR_dyadic (m e : ℤ) (hm : |m| < 2 ^ 53) (he : -1074 ≤ e) :
    flR ((m : ℚ) * 2 ^ e) = (m : ℚ) * 2 ^ e := by
  rcases eq_or_ne m 0 with rfl | hm0
  · simp [flR_zero]
  · obtain ⟨x, hx⟩ : ∃ x : ℚ, x = (m : ℚ) * 2 ^ e := ⟨_, rfl⟩
    rw [← hx]
    have hpe := two_zpow_pos e
    have hmq : |(m : ℚ)| < 2 ^ 53 := by exact_mod_cast hm
    have hxabs : |x| = |(m : ℚ)| * 2 ^ e := by
      rw [hx, abs_mul, abs_of_pos hpe]
    have hxpos : 0 < |x| := by
      rw [hxabs]
      exact mul_pos (abs_pos.mpr (by exact_mod_cast hm0)) hpe
    have hlt : |x| < (2 : ℚ) ^ (53 + e) := by
      rw [hxabs, zpow_add₀ (by norm_num : (2 : ℚ) ≠ 0)]
      have : (2 : ℚ) ^ (53 : ℤ) = 2 ^ 53 := by norm_num
      rw [this]
      exact mul_lt_mul_of_pos_right hmq hpe
    have hlog : Int.log 2 |x| < 53 + e :=
      (Int.lt_zpow_iff_log_lt (b := 2) (by norm_num) hxpos).mp (by simpa using hlt)
    have hE : ulpExp x ≤ e := by
      unfold ulpExp
      exact max_le (by omega) he
    obtain ⟨n, hn⟩ := Int.eq_ofNat_of_zero_le (sub_nonneg.mpr hE)
    have hsplit : (2 : ℚ) ^ e = 2 ^ n * 2 ^ ulpExp x := by
      have : e = (n : ℤ) + ulpExp x := by omega
      conv_lhs => rw [this]
      rw [zpow_add₀ (by norm_num), zpow_natCast]
    apply flR_of_grid x (m * 2 ^ n)
    conv_lhs => rw [hx, hsplit]
    push_cast
    ring

/-- The rounding of `x` in the binade of `2 ^ L`, normal range: `k` units in
the last place when `x` is within half a unit of them. -/
theorem flR_eval (x : ℚ) (L k : ℤ) (hL : -1022 ≤ L) (h1 : (2 : ℚ) ^ L ≤ |x|)
    (h2 : |x| < 2 ^ (L + 1)) (hk : |x / 2 ^ (L - 52) - k| < 1 / 2) :
    flR x = k * 2 ^ (L - 52) := by
  have hlog := log_eq_of_bounds x L h1 h2
  have hE : ulpExp x = L - 52 := by
    unfold ulpExp
    rw [hlog]
    exact max_eq_left (by omega)
  unfold flR
  rw [hE, roundNE_eq_of_abs_lt _ k hk]

theorem isDouble_iff (q : ℚ) : IsDouble q ↔ flR q = q ∧ -2 ^ 1024 < q ∧ q < 2 ^ 1024 := by
  unfold IsDouble fl
  constructor
  · intro h
    split_ifs at h with h1 h2
    have e : flR q = q := Dbl.fin.inj h
    rw [e] at h1 h2
    exact ⟨e, not_le.mp h2, not_le.mp h1⟩
  · rintro ⟨e, h1, h2⟩
    rw [e, if_neg (not_le.mpr h2), if_neg (not_le.mpr h1)]

/-- A rounded result lying between two binary64 values is finite and lies
between them. -/
theorem fl_between (x lo hi : ℚ) (hlo : IsDouble lo) (hhi : IsDouble hi) (h1 : lo ≤ x)
    (h2 : x ≤ hi) : fl x = Dbl.fin (flR x) ∧ lo ≤ flR x ∧ flR x ≤ hi := by
  obtain ⟨e1, l1, -⟩ := (isDouble_iff lo).mp hlo
  obtain ⟨e2, -, u2⟩ := (isDouble_iff hi).mp hhi
  have a := flR_mono h1
  have b := flR_mono h2
  rw [e1] at a
  rw [e2] at b
  refine ⟨?_, a, b⟩
  unfold fl
  rw [if_neg (not_le.mpr (lt_of_le_of_lt b u2)), if_neg (not_le.mpr (lt_of_lt_of_le l1 a))]

theorem isDouble_dyadic (q : ℚ) (m e : ℤ) (hq : q = (m : ℚ) * 2 ^ e) (hm : |m| < 2 ^ 53)
    (he : -1074 ≤ e) (he2 : e ≤ 971) : IsDouble q := by
  rw [isDouble_iff, hq]
  have hpe := two_zpow_pos e
  have hmq : |(m : ℚ)| < 2 ^ 53 := by exact_mod_cast hm
  have hb : |(m : ℚ) * 2 ^ e| < 2 ^ 1024 := by
    rw [abs_mul, abs_of_pos hpe]
    have h971 : (2 : ℚ) ^ e ≤ 2 ^ (971 : ℤ) := zpow_le_zpow_right₀ (by norm_num) he2
    calc |(m : ℚ)| * 2 ^ e < 2 ^ 53 * 2 ^ e := mul_lt_mul_of_pos_right hmq hpe
      _ ≤ 2 ^ 53 * 2 ^ (971 : ℤ) := mul_le_mul_of_nonneg_left h971 (by norm_num)
      _ = 2 ^ 1024 := by norm_num
  rw [abs_lt] at hb
  exact ⟨flR_dyadic m e hm he, hb.1, hb.2⟩

theorem isDouble_int (n : ℤ) (hn : |n| < 2 ^ 53) : IsDouble (n : ℚ) :=
  isDouble_dyadic _ n 0 (by simp) hn (by norm_num) (by norm_num)

theorem isDouble_flR_of_isDouble (q : ℚ) (h : IsDouble q) : flR q = q :=
  ((isDouble_iff q).mp h).1

/-- Half a unit in the last place bounds the rounding error. -/
theorem flR_err (x : ℚ) : |flR x - x| ≤ 2 ^ ulpExp x / 2 := by
  have hp := two_zpow_pos (ulpExp x)
  have hc := roundNE_close (x / 2 ^ ulpExp x)
  have e : flR x - x = ((roundNE (x / 2 ^ ulpExp x) : ℚ) - x / 2 ^ ulpExp x) * 2 ^ ulpExp x := by
    unfold flR
    field_simp
  rw [e, abs_mul, abs_of_pos hp]
  calc |(roundNE (x / 2 ^ ulpExp x) : ℚ) - x / 2 ^ ulpExp x| * 2 ^ ulpExp x
      ≤ 1 / 2 * 2 ^ ulpExp x := mul_le_mul_of_nonneg_right hc hp.le
    _ = 2 ^ ulpExp x / 2 := by ring

/-- In the normal range the rounding error is at most `|x| / 2 ^ 53`. -/
theorem flR_rel_err (x : ℚ) (hx : (2 : ℚ) ^ (-1022 : ℤ) ≤ |x|) :
    |flR x - x| ≤ |x| / 2 ^ 53 := by
  have hpos : 0 < |x| := lt_of_lt_of_le (two_zpow_pos _) hx
  have hx0 : x ≠ 0 := abs_pos.mp hpos
  have hlog : -1022 ≤ Int.log 2 |x| :=
    (Int.zpow_le_iff_le_log (b := 2) (by norm_num) hpos).mp (by simpa using hx)
  have hE : ulpExp x = Int.log 2 |x| - 52 := by
    unfold ulpExp
    exact max_eq_left (by omega)
  have h1 := flR_err x
  have h2 := log_le_abs x hx0
  rw [hE, zpow_sub₀ (by norm_num : (2 : ℚ) ≠ 0)] at h1
  have h52 : (2 : ℚ) ^ (52 : ℤ) = 2 ^ 52 := by norm_num
  rw [h52] at h1
  calc |flR x - x| ≤ 2 ^ Int.log 2 |x| / 2 ^ 52 / 2 := h1
    _ ≤ |x| / 2 ^ 52 / 2 := by
        apply div_le_div_of_nonneg_right _ (by norm_num)
        exact div_le_div_of_nonneg_right h2 (by norm_num)
    _ = |x| / 2 ^ 53 := by ring

/-! ## Lists, labels and the refresh timer -/

theorem foldl_min_le_init (xs : List ℚ) (x : ℚ) : xs.foldl min x ≤ x := by
  induction xs generalizing x with
  | nil => simp
  | cons a t ih => exact le_trans (ih (min x a)) (min_le_left x a)

theorem foldl_min_le_mem (xs : List ℚ) (x v : ℚ) (hv : v ∈ xs) : xs.foldl min x ≤ v := by
  induction xs generalizing x with
  | nil => simp at hv
  | cons a t ih =>
    rcases List.mem_cons.mp hv with rfl | h
    · exact le_trans (foldl_min_le_init t (min x v)) (min_le_right x v)
    · exact ih (min x a) h

theorem foldl_min_mem (xs : List ℚ) (x : ℚ) : xs.foldl min x ∈ x :: xs := by
  induction xs generalizing x with
  | nil => simp
  | cons a t ih =>
    rcases List.mem_cons.mp (ih (min x a)) with h | h
    · rw [List.foldl_cons, h]
      rcases min_choice x a with hx | ha
      · rw [hx]; simp
      · rw [ha]; simp
    · rw [List.foldl_cons]
      exact List.mem_cons_of_mem _ (List.mem_cons_of_mem _ h)

theorem le_foldl_max_init (xs : List ℚ) (x : ℚ) : x ≤ xs.foldl max x := by
  induction xs generalizing x with
  | nil => simp
  | cons a t ih => exact le_trans (le_max_left x a) (ih (max x a))

theorem le_foldl_max_mem (xs : List ℚ) (x v : ℚ) (hv : v ∈ xs) : v ≤ xs.foldl max x := by
  induction xs generalizing x with
  | nil => simp at hv
  | cons a t ih =>
    rcases List.mem_cons.mp hv with rfl | h
    · exact le_trans (le_max_right x v) (le_foldl_max_init t (max x v))
    · exact ih (max x a) h

theorem foldl_max_mem (xs : List ℚ) (x : ℚ) : xs.foldl max x ∈ x :: xs := by
  induction xs generalizing x with
  | nil => simp
  | cons a t ih =>
    rcases List.mem_cons.mp (ih (max x a)) with h | h
    · rw [List.foldl_cons, h]
      rcases max_choice x a with hx | ha
      · rw [hx]; simp
      · rw [ha]; simp
    · rw [List.foldl_cons]
      exact List.mem_cons_of_mem _ (List.mem_cons_of_mem _ h)

/-- On a non-empty Series `Math.min` and `Math.max` are finite, are samples of
the Series and bound every sample. -/
theorem min_max_spec (data : List ℚ) (hne : data ≠ []) :
    ∃ m M, mathMin data = some m ∧ mathMax data = some M ∧ m ∈ data ∧ M ∈ data ∧
      ∀ v ∈ data, m ≤ v ∧ v ≤ M := by
  cases data with
  | nil => exact absurd rfl hne
  | cons x xs =>
    refine ⟨xs.foldl min x, xs.foldl max x, rfl, rfl, foldl_min_mem xs x, foldl_max_mem xs x, ?_⟩
    intro v hv
    rcases List.mem_cons.mp hv with rfl | h
    · exact ⟨foldl_min_le_init xs v, le_foldl_max_init xs v⟩
    · exact ⟨foldl_min_le_mem xs x v h, le_foldl_max_mem xs x v h⟩

theorem ne_nil_of_two_le {α : Type} (l : List α) (h : 2 ≤ l.length) : l ≠ [] := by
  intro h0; rw [h0] at h; simp at h

theorem mem_mapIdx_iff {α β : Type} (f : ℕ → α → β) (l : List α) (b : β) :
    b ∈ l.mapIdx f ↔ ∃ i, ∃ hi : i < l.length, b = f i l[i] := by
  constructor
  · intro hb
    obtain ⟨i, hi, rfl⟩ := List.getElem_of_mem hb
    have hi2 : i < l.length := by simpa using hi
    exact ⟨i, hi2, by simp⟩
  · rintro ⟨i, hi, rfl⟩
    have hi2 : i < (l.mapIdx f).length := by simpa using hi
    have : (l.mapIdx f)[i] = f i l[i] := by simp
    rw [← this]
    exact List.getElem_mem hi2

theorem len_sub_one_ne_zero (data : List ℚ) (hlen : 2 ≤ data.length) :
    (data.length : ℚ) - 1 ≠ 0 := by
  have : (2 : ℚ) ≤ (data.length : ℚ) := by exact_mod_cast hlen
  intro h0
  linarith

/-- C6 fails as stated: on the default canvas width of 300 a Series of thirty
samples gets the bar width `236 / 30 - 12 = -62 / 15`, below the minimum `1`. -/
theorem barW_below_minimum :
    barW 300 (List.replicate 30 5) = some (-62 / 15) ∧
      ¬ ∀ (w : ℚ) (data : List ℚ), data ≠ [] → ∃ b, barW w data = some b ∧ 1 ≤ b := by
  have e : barW 300 (List.replicate 30 5) = some (-62 / 15) := by
    simp [barW, jsSub, jsDiv, pad]
    norm_num
  refine ⟨e, ?_⟩
  intro hall
  obtain ⟨b, hb, h1⟩ := hall 300 (List.replicate 30 5) (by simp)
  rw [e] at hb
  have : b = -62 / 15 := (Option.some.inj hb).symm
  rw [this] at h1
  norm_num at h1

/-- C6, amended. For a non-empty Series of `n` samples the bar width of
`drawBarChart` is the finite number `(w - 2 * pad) / n - 12`, and it is at
least `1` exactly when `w` is at least `2 * pad + 13 * n`. -/
theorem barW_minimum_iff (w : ℚ) (data : List ℚ) (hne : data ≠ []) :
    barW w data = some ((w - 2 * pad) / data.length - 12) ∧
      (1 ≤ (w - 2 * pad) / data.length - 12 ↔ 2 * pad + 13 * data.length ≤ w) := by
  have hpos : (0 : ℚ) < data.length := by
    have : 0 < data.length := List.length_pos.mpr hne
    exact_mod_cast this
  constructor
  · simp [barW, jsSub, jsDiv, hpos.ne']
    ring
  · rw [le_sub_iff_add_le, le_div_iff₀ hpos]
    constructor <;> intro hle <;> linarith

theorem barW_minimum_iff_witness :
    [(12 : ℚ), 8, 5] ≠ [] ∧
      (barW 300 [12, 8, 5] = some ((300 - 2 * pad) / ([(12 : ℚ), 8, 5].length : ℕ) - 12) ∧
      (1 ≤ (300 - 2 * pad) / (([(12 : ℚ), 8, 5].length : ℕ) : ℚ) - 12 ↔
        2 * pad + 13 * (([(12 : ℚ), 8, 5].length : ℕ) : ℚ) ≤ 300)) :=
  ⟨by simp, barW_minimum_iff 300 [12, 8, 5] (by simp)⟩

theorem fillTexts_append (a b : List Cmd) : fillTexts (a ++ b) = fillTexts a ++ fillTexts b := by
  induction a with
  | nil => rfl
  | cons c t ih => cases c <;> simp [fillTexts, ih]

theorem fillTexts_barCmds (w h : ℚ) (data : List ℚ) (labels : List String) (i : ℕ) (v : ℚ) :
    fillTexts (barCmds w h data labels i v) = [Text.str (barLabel labels i)] := by
  simp [barCmds, fillTexts]

theorem fillTexts_flatten_mapIdx (f : ℕ → ℚ → List Cmd) (g : ℕ → Text)
    (hf : ∀ i v, fillTexts (f i v) = [g i]) (l : List ℚ) :
    fillTexts (l.mapIdx f).flatten = (List.range l.length).map g := by
  induction l using List.reverseRecOn with
  | nil => simp [fillTexts]
  | append_singleton t a ih =>
    rw [List.mapIdx_append, List.flatten_append, fillTexts_append, ih]
    simp [List.range_succ, fillTexts_append, hf, fillTexts]

theorem barLabel_ne_empty (labels : List String) (i : ℕ) : barLabel labels i ≠ "" := by
  have hf : ("f" ++ toString i : String) ≠ "" := by
    intro h0
    have := congrArg String.length h0
    simp at this
    exact absurd this.1 (by decide)
  unfold barLabel
  split
  · split
    · exact hf
    · assumption
  · exact hf

/-- C7. On an existing surface the labels `drawBarChart` draws are, bar by
bar, `barLabel labels i`: the entry `labels[i]` when it exists and is not
empty, otherwise the letter f followed by the decimal index; none of them is
the empty string, whatever the lengths of the Series and of Labels. -/
theorem barChart_labels (dom : Dom) (id : String) (canvas : Canvas) (data : List ℚ)
    (labels : List String) (hs : dom id = some canvas) :
    fillTexts (drawBarChart dom id data labels).cmds =
        (List.range data.length).map (fun i => Text.str (barLabel labels i)) ∧
      (∀ i, barLabel labels i ≠ "") ∧
      (∀ i s, labels[i]? = some s → s ≠ "" → barLabel labels i = s) ∧
      (∀ i, labels[i]? = none ∨ labels[i]? = some "" →
        barLabel labels i = "f" ++ toString i) := by
  refine ⟨?_, barLabel_ne_empty labels, ?_, ?_⟩
  · simp only [drawBarChart, hs]
    show fillTexts (_ :: _) = _
    rw [fillTexts]
    · exact fillTexts_flatten_mapIdx _ _ (fillTexts_barCmds _ _ data labels) data
    · intro t x y hcon
      cases hcon
  · intro i s hsome hne
    simp [barLabel, hsome, hne]
  · intro i hor
    rcases hor with h0 | h0 <;> simp [barLabel, h0]

theorem barChart_labels_witness :
    sampleDom "barChart" = some ⟨300, 150⟩ ∧
    (fillTexts (drawBarChart sampleDom "barChart" [12, 8, 5] ["feat_a", ""]).cmds =
        (List.range [(12 : ℚ), 8, 5].length).map
          (fun i => Text.str (barLabel ["feat_a", ""] i)) ∧
      (∀ i, barLabel ["feat_a", ""] i ≠ "") ∧
      (∀ i s, ["feat_a", ""][i]? = some s → s ≠ "" → barLabel ["feat_a", ""] i = s) ∧
      (∀ i, ["feat_a", ""][i]? = none ∨ ["feat_a", ""][i]? = some "" →
        barLabel ["feat_a", ""] i = "f" ++ toString i)) :=
  ⟨by decide, barChart_labels sampleDom "barChart" ⟨300, 150⟩ [12, 8, 5] ["feat_a", ""]
    (by decide)⟩

/-- C8. When the surface lookup finds nothing, each of `drawLineChart`,
`drawBarChart` and `drawSparkline` returns without throwing and without a
single context command, whatever the Series (empty and one-sample ones
included); the routines being functions of their arguments, the Series is
left as it was. -/
theorem missing_surface_no_op (host : MathHost) (dom : Dom) (id : String) (data : List ℚ)
    (stamps : List ℚ) (labels : List String) (hs : dom id = none) :
    drawLineChart host dom id data stamps = { cmds := [], threw := false } ∧
      drawBarChart dom id data labels = { cmds := [], threw := false } ∧
      drawSparkline dom id data = { cmds := [], threw := false } := by
  simp [drawLineChart, drawBarChart, drawSparkline, hs]

theorem missing_surface_no_op_witness :
    sampleDom "missing" = none ∧
    (drawLineChart sampleHost sampleDom "missing" [] [] = { cmds := [], threw := false } ∧
      drawBarChart sampleDom "missing" [] ["feat_a"] = { cmds := [], threw := false } ∧
      drawSparkline sampleDom "missing" [] = { cmds := [], threw := false }) :=
  ⟨by decide, missing_surface_no_op sampleHost sampleDom "missing" [] [] ["feat_a"] (by decide)⟩

theorem drawLineChart_threw (host : MathHost) (dom : Dom) (id : String) (data stamps : List ℚ)
    (hne : data ≠ []) : (drawLineChart host dom id data stamps).threw = false := by
  unfold drawLineChart
  cases dom id with
  | none => rfl
  | some canvas =>
    simp only
    have hl : (linePts canvas.width canvas.height data).length = data.length := by
      simp [linePts]
    split
    · rename_i hnil
      rw [hnil] at hl
      exact absurd hl.symm (by simpa using hne)
    · rfl

theorem rollPerf_ne_nil (host : MathHost) (perf : List ℚ) (r : ℚ) : rollPerf host perf r ≠ [] := by
  simp [rollPerf]

theorem tick_perf (host : MathHost) (dom : Dom) (rnd : Rand) (s : Dash) :
    (tick host dom rnd s).perf = rollPerf host s.perf (rnd s.draws) := by
  unfold tick
  simp only
  split <;> rfl

theorem tick_spark (host : MathHost) (dom : Dom) (rnd : Rand) (s : Dash) :
    (tick host dom rnd s).spark = sparkLoop host rnd 0 (s.draws + 1) s.spark := by
  unfold tick
  simp only [drawLineChart_threw host dom "lineChart" _ s.timestamps
    (rollPerf_ne_nil host s.perf (rnd s.draws))]
  rfl

theorem sparkLoop_length (host : MathHost) (rnd : Rand) (i k : ℕ) (l : List ℚ) :
    (sparkLoop host rnd i k l).length = l.length := by
  induction l generalizing i k with
  | nil => rfl
  | cons a t ih => simp [sparkLoop, ih]

theorem sparkLoop_get (host : MathHost) (rnd : Rand) (i k : ℕ) (l : List ℚ) (j : ℕ)
    (hj : j < l.length) :
    (sparkLoop host rnd i k l)[j]? =
      some (sparkSample host (i + j) (rnd (k + 2 * j)) (rnd (k + 2 * j + 1))) := by
  induction l generalizing i k j with
  | nil => simp at hj
  | cons a t ih =>
    cases j with
    | zero => simp [sparkLoop]
    | succ j =>
      have hj2 : j < t.length := by simpa using hj
      simp only [sparkLoop, List.getElem?_cons_succ]
      rw [ih (i + 1) (k + 2) j hj2]
      congr 2
      · omega
      · congr 1; omega
      · congr 1; omega

/-- C3. One run of the timer callback on a non-empty line-chart Series leaves
`tail(s) ++ [x]`, where `x` is the fresh sample
`70 + round(10 * sin((length - 1) / 3) + 6 * r)` for the draw `r`: the length
is unchanged, the first element is gone, every other element sits one
position to the left and `x` is last. -/
theorem tick_rolls_perf (host : MathHost) (dom : Dom) (rnd : Rand) (s : Dash)
    (hne : s.perf ≠ []) :
    (tick host dom rnd s).perf =
        s.perf.tail ++ [perfSample host (s.perf.length - 1) (rnd s.draws)] ∧
      (tick host dom rnd s).perf.length = s.perf.length ∧
      (∀ i, i + 1 < s.perf.length → (tick host dom rnd s).perf[i]? = s.perf[i + 1]?) ∧
      (tick host dom rnd s).perf[s.perf.length - 1]? =
        some (perfSample host (s.perf.length - 1) (rnd s.draws)) := by
  have hpos : 0 < s.perf.length := List.length_pos.mpr hne
  have e : (tick host dom rnd s).perf =
      s.perf.tail ++ [perfSample host (s.perf.length - 1) (rnd s.draws)] := by
    rw [tick_perf, rollPerf, List.length_tail]
  refine ⟨e, ?_, ?_, ?_⟩
  · rw [e]; simp; omega
  · intro i hi
    rw [e, List.getElem?_append_left (by simp; omega), List.getElem?_tail]
  · rw [e, List.getElem?_append_right (by simp)]
    simp

theorem tick_rolls_perf_witness :
    sampleDash.perf ≠ [] ∧
    ((tick sampleHost sampleDom sampleRand sampleDash).perf =
        sampleDash.perf.tail ++
          [perfSample sampleHost (sampleDash.perf.length - 1) (sampleRand sampleDash.draws)] ∧
      (tick sampleHost sampleDom sampleRand sampleDash).perf.length = sampleDash.perf.length ∧
      (∀ i, i + 1 < sampleDash.perf.length →
        (tick sampleHost sampleDom sampleRand sampleDash).perf[i]? = sampleDash.perf[i + 1]?) ∧
      (tick sampleHost sampleDom sampleRand sampleDash).perf[sampleDash.perf.length - 1]? =
        some (perfSample sampleHost (sampleDash.perf.length - 1)
          (sampleRand sampleDash.draws))) :=
  ⟨by simp [sampleDash, sampleSeries],
    tick_rolls_perf sampleHost sampleDom sampleRand sampleDash
      (by simp [sampleDash, sampleSeries])⟩

theorem call_ok (id : String) (data : List ℚ) (out : DrawResult) (hlen : 2 ≤ data.length)
    (ht : out.threw = false) :
    2 ≤ (Call.mk id data out).data.length ∧ (((Call.mk id data out).data.length : ℕ) : ℚ) - 1 ≠ 0 ∧
      (Call.mk id data out).out.threw = false :=
  ⟨hlen, len_sub_one_ne_zero data hlen, ht⟩

theorem drawBarChart_threw (dom : Dom) (id : String) (data : List ℚ) (labels : List String) :
    (drawBarChart dom id data labels).threw = false := by
  unfold drawBarChart
  cases dom id <;> rfl

theorem drawSparkline_threw (dom : Dom) (id : String) (arr : List ℚ) :
    (drawSparkline dom id arr).threw = false := by
  unfold drawSparkline
  cases dom id <;> rfl

theorem initPerf_length (host : MathHost) (rnd : Rand) (now : ℚ) :
    (initPerf host rnd (initTimestamps now)).length = 30 := by
  rw [initPerf, List.length_mapIdx, initTimestamps, List.length_map, List.length_range]

theorem initSpark_length (host : MathHost) (rnd : Rand) (k : ℕ) :
    (initSpark host rnd k).length = 64 := by
  rw [initSpark, List.length_mapIdx, List.length_replicate]

theorem initDashboards_perf (host : MathHost) (dom : Dom) (rnd : Rand) (now : ℚ) :
    (initDashboards host dom rnd now).perf = initPerf host rnd (initTimestamps now) := by
  unfold initDashboards
  simp only

theorem initDashboards_spark (host : MathHost) (dom : Dom) (rnd : Rand) (now : ℚ) :
    (initDashboards host dom rnd now).spark =
      initSpark host rnd (initPerf host rnd (initTimestamps now)).length := by
  unfold initDashboards
  simp only

theorem initDashboards_importance (host : MathHost) (dom : Dom) (rnd : Rand) (now : ℚ) :
    (initDashboards host dom rnd now).importance = importance := by
  unfold initDashboards
  simp only

theorem initDashboards_calls (host : MathHost) (dom : Dom) (rnd : Rand) (now : ℚ) :
    (initDashboards host dom rnd now).calls =
      [ ⟨"lineChart", initPerf host rnd (initTimestamps now),
          drawLineChart host dom "lineChart" (initPerf host rnd (initTimestamps now))
            (initTimestamps now)⟩,
        ⟨"barChart", importance, drawBarChart dom "barChart" importance featLabels⟩,
        ⟨"sparkChart", initSpark host rnd (initPerf host rnd (initTimestamps now)).length,
          drawSparkline dom "sparkChart"
            (initSpark host rnd (initPerf host rnd (initTimestamps now)).length)⟩ ] := by
  have hth := drawLineChart_threw host dom "lineChart" (initPerf host rnd (initTimestamps now))
    (initTimestamps now) (ne_nil_of_two_le _ (by rw [initPerf_length]; norm_num))
  unfold initDashboards
  simp only [hth, Bool.false_eq_true, if_false]

theorem initDashboards_sizes (host : MathHost) (dom : Dom) (rnd : Rand) (now : ℚ) :
    SizesOk (initDashboards host dom rnd now) := by
  refine ⟨?_, ?_, ?_, ?_⟩
  · rw [initDashboards_perf, initPerf_length]
  · rw [initDashboards_importance]; rfl
  · rw [initDashboards_spark, initSpark_length]
  · intro c hc
    rw [initDashboards_calls] at hc
    simp only [List.mem_cons, List.mem_singleton, List.not_mem_nil, or_false] at hc
    rcases hc with rfl | rfl | rfl
    · exact call_ok _ _ _ (by rw [initPerf_length]; norm_num)
        (drawLineChart_threw host dom "lineChart" _ _
          (ne_nil_of_two_le _ (by rw [initPerf_length]; norm_num)))
    · exact call_ok _ _ _ (by simp [importance]) (drawBarChart_threw _ _ _ _)
    · exact call_ok _ _ _ (by rw [initSpark_length]; norm_num) (drawSparkline_threw _ _ _)

theorem tick_sizes (host : MathHost) (dom : Dom) (rnd : Rand) (s : Dash) (hs : SizesOk s) :
    SizesOk (tick host dom rnd s) := by
  obtain ⟨hp, hi, hk, hc⟩ := hs
  have hroll : (rollPerf host s.perf (rnd s.draws)).length = 30 := by
    simp [rollPerf, hp]
  have hth := drawLineChart_threw host dom "lineChart" _ s.timestamps
    (rollPerf_ne_nil host s.perf (rnd s.draws))
  have hloop : (sparkLoop host rnd 0 (s.draws + 1) s.spark).length = 64 := by
    rw [sparkLoop_length, hk]
  refine ⟨by rw [tick_perf]; exact hroll, ?_, by rw [tick_spark]; exact hloop, ?_⟩
  · unfold tick
    simp only [hth]
    exact hi
  · intro c hcm
    unfold tick at hcm
    simp only [hth, Bool.false_eq_true, if_false, List.mem_append, List.mem_cons,
      List.mem_singleton, List.not_mem_nil, or_false] at hcm
    rcases hcm with h | rfl | rfl
    · exact hc c h
    · exact call_ok _ _ _ (by rw [hroll]; norm_num) hth
    · exact call_ok _ _ _ (by rw [hloop]; norm_num) (drawSparkline_threw _ _ _)

/-- C4. In the state after `initDashboards` and any number `n` of runs of the
timer callback the line-chart Series has 30 samples, the bar-chart Series 10
and the sparkline Series 64; no draw call of `initDashboards` throws, so the
timer is set; and every Series passed to a draw routine so far has at least
two samples, so that the divisor `length - 1` is not zero, and the call did
not throw. -/
theorem series_sizes_invariant (host : MathHost) (dom : Dom) (rnd : Rand) (now : ℚ) (n : ℕ) :
    (ticks host dom rnd now n).perf.length = 30 ∧
      (ticks host dom rnd now n).importance.length = 10 ∧
      (ticks host dom rnd now n).spark.length = 64 ∧
      timerSet host dom rnd now = true ∧
      ∀ c ∈ (ticks host dom rnd now n).calls,
        2 ≤ c.data.length ∧ (c.data.length : ℚ) - 1 ≠ 0 ∧ c.out.threw = false := by
  have inv : SizesOk (ticks host dom rnd now n) := by
    induction n with
    | zero => exact initDashboards_sizes host dom rnd now
    | succ k ih => exact tick_sizes host dom rnd _ ih
  have ht : timerSet host dom rnd now = true := by
    unfold timerSet
    rw [List.all_eq_true]
    intro c hc
    simp [((initDashboards_sizes host dom rnd now).2.2.2 c hc).2.2]
  exact ⟨inv.1, inv.2.1, inv.2.2.1, ht, inv.2.2.2⟩

theorem initDashboards_draws (host : MathHost) (dom : Dom) (rnd : Rand) (now : ℚ) :
    (initDashboards host dom rnd now).draws = 94 := by
  unfold initDashboards
  simp only [initPerf_length, initSpark_length]

theorem jsRound_of_bounds (x : ℚ) (z : ℤ) (h1 : (z : ℚ) ≤ x + 1 / 2) (h2 : x + 1 / 2 < z + 1) :
    jsRound x = z := by
  unfold jsRound
  exact Int.floor_eq_iff.mpr ⟨h1, h2⟩

theorem sampleRand_range (k : ℕ) : 0 ≤ sampleRand k ∧ sampleRand k < 1 := by
  unfold sampleRand
  split
  · norm_num
  · split <;> norm_num

theorem sparkSample_at : sparkSample sampleHost 0 (1 / 2) (1 / 100) = 42 := by
  have e : jsRound (18 * sampleHost.sin ((((0 : ℕ) : ℚ) + 1 / 2) / 5) + 1 / 100 * 6) = 2 :=
    jsRound_of_bounds _ 2 (by norm_num [sampleHost]) (by norm_num [sampleHost])
  simp only [sparkSample, e]
  norm_num

/-- C9 fails as stated: with the draws of `sampleRand`, all in `[0, 1)` and
not constant, `spark[0]` is seeded with `40 + round(18 * sin(0) + 6 * 3 / 10)
= 42` and the first run of the timer callback, drawing `1 / 2` and `1 / 100`
for it, writes `40 + round(18 * sin(1 / 10) + 6 / 100) = 42` again. -/
theorem spark_sample_kept :
    (∀ k, 0 ≤ sampleRand k ∧ sampleRand k < 1) ∧ sampleRand 95 ≠ sampleRand 96 ∧
      (ticks sampleHost sampleDom sampleRand 0 0).spark[0]? = some 42 ∧
      (ticks sampleHost sampleDom sampleRand 0 1).spark[0]? = some 42 := by
  refine ⟨sampleRand_range, by norm_num [sampleRand], ?_, ?_⟩
  · show (initDashboards sampleHost sampleDom sampleRand 0).spark[0]? = some 42
    rw [initDashboards_spark, initPerf_length, initSpark, List.getElem?_mapIdx]
    have e : jsRound (18 * sampleHost.sin (((0 : ℕ) : ℚ) / 5) + sampleRand (30 + 0) * 6) = 2 :=
      jsRound_of_bounds _ 2 (by norm_num [sampleHost, sampleRand])
        (by norm_num [sampleHost, sampleRand])
    simp only [sparkSeed, e]
    norm_num
  · show (tick sampleHost sampleDom sampleRand
      (initDashboards sampleHost sampleDom sampleRand 0)).spark[0]? = some 42
    rw [tick_spark, sparkLoop_get _ _ _ _ _ 0
      (by rw [initDashboards_spark, initSpark_length]; norm_num), initDashboards_draws]
    have r1 : sampleRand (94 + 1 + 2 * 0) = 1 / 2 := by norm_num [sampleRand]
    have r2 : sampleRand (94 + 1 + 2 * 0 + 1) = 1 / 100 := by norm_num [sampleRand]
    rw [r1, r2]
    show some (sparkSample sampleHost 0 (1 / 2) (1 / 100)) = some 42
    rw [sparkSample_at]

/-- C9, amended. One run of the timer callback keeps the length of the
sparkline Series and overwrites every sample: `spark[i]` becomes
`40 + round(18 * sin((i + r1) / 5) + 6 * r2)` for two fresh draws `r1`, `r2`
of its own, the draws numbered `d + 1 + 2 * i` and `d + 2 + 2 * i` when `d`
draws were made before the run. (The value written may equal the one held
before.) -/
theorem tick_rewrites_spark (host : MathHost) (dom : Dom) (rnd : Rand) (s : Dash) :
    (tick host dom rnd s).spark.length = s.spark.length ∧
      ∀ i, i < s.spark.length →
        (tick host dom rnd s).spark[i]? =
          some (sparkSample host i (rnd (s.draws + 1 + 2 * i)) (rnd (s.draws + 1 + 2 * i + 1))) := by
  constructor
  · rw [tick_spark, sparkLoop_length]
  · intro i hi
    rw [tick_spark, sparkLoop_get host rnd 0 (s.draws + 1) s.spark i hi, Nat.zero_add]

theorem tick_rewrites_spark_witness :
    (tick sampleHost sampleDom sampleRand sampleDash).spark.length = sampleDash.spark.length ∧
      ∀ i, i < sampleDash.spark.length →
        (tick sampleHost sampleDom sampleRand sampleDash).spark[i]? =
          some (sparkSample sampleHost i (sampleRand (sampleDash.draws + 1 + 2 * i))
            (sampleRand (sampleDash.draws + 1 + 2 * i + 1))) :=
  tick_rewrites_spark sampleHost sampleDom sampleRand sampleDash

/-! ## The line chart in binary64 -/

theorem fl_of_isDouble {q : ℚ} (h : IsDouble q) : fl q = Dbl.fin q := h

theorem fl_fin_of_lt (x : ℚ) (h1 : -2 ^ 1024 < flR x) (h2 : flR x < 2 ^ 1024) :
    fl x = Dbl.fin (flR x) := by
  unfold fl
  rw [if_neg (not_le.mpr h2), if_neg (not_le.mpr h1)]

theorem fl_eq_fin {x q : ℚ} (h : fl x = Dbl.fin q) :
    q = flR x ∧ -2 ^ 1024 < q ∧ q < 2 ^ 1024 := by
  unfold fl at h
  split_ifs at h with h1 h2
  have e : flR x = q := Dbl.fin.inj h
  rw [e] at h1 h2
  exact ⟨e.symm, not_le.mp h2, not_le.mp h1⟩

theorem dSub_eq_fin {a b : Dbl} {r : ℚ} (h : dSub a b = Dbl.fin r) :
    ∃ x y, a = Dbl.fin x ∧ b = Dbl.fin y ∧ fl (x - y) = Dbl.fin r := by
  cases a <;> cases b <;> simp [dSub] at h
  exact ⟨_, _, rfl, rfl, h⟩

theorem isDouble_zero : IsDouble 0 := by
  have := isDouble_int 0 (by norm_num)
  simpa using this

theorem isDouble_one : IsDouble 1 := by
  have := isDouble_int 1 (by norm_num)
  simpa using this

theorem isDouble_natCast (n : ℕ) (hn : n < 2 ^ 53) : IsDouble (n : ℚ) := by
  have := isDouble_int (n : ℤ) (by rw [abs_of_nonneg (by positivity)]; exact_mod_cast hn)
  simpa using this

theorem isDouble_natCast_sub (n k : ℕ) (hn : n < 2 ^ 53) (hk : k < 2 ^ 53) :
    IsDouble ((n : ℚ) - k) := by
  have := isDouble_int ((n : ℤ) - k) (by rw [abs_lt]; constructor <;> omega)
  simpa using this

theorem isDouble_ofNat_small (q : ℚ) (n : ℕ) (hq : q = n) (hn : n < 2 ^ 53) : IsDouble q := by
  rw [hq]; exact isDouble_natCast n hn

/-- What a finite `range` of `drawLineChart` says of `min` and `max`. -/
theorem line_setup (data : List ℚ) (hne : data ≠ []) (hd : ∀ v ∈ data, IsDouble v) (r : ℚ)
    (hr : lineRange data = Dbl.fin r) :
    ∃ a b, lineMin data = Dbl.fin a ∧ lineMax data = Dbl.fin b ∧ r = flR (b - a) ∧
      r < 2 ^ 1024 ∧ 0 ≤ r ∧ ∀ v ∈ data, a ≤ v ∧ v ≤ b := by
  obtain ⟨m, M, hm, hM, hmd, hMd, hb⟩ := min_max_spec data hne
  obtain ⟨b, a, hmax, hmin, hfl⟩ := dSub_eq_fin hr
  have hmin' : fl (m - 6) = Dbl.fin a := by
    have : lineMin data = fl (m - 6) := by simp [lineMin, mathMinD, hm, dSub]
    rw [← this, hmin]
  have hmax' : fl (M + 6) = Dbl.fin b := by
    have : lineMax data = fl (M + 6) := by simp [lineMax, mathMaxD, hM, dAdd]
    rw [← this, hmax]
  obtain ⟨ea, -, -⟩ := fl_eq_fin hmin'
  obtain ⟨eb, -, -⟩ := fl_eq_fin hmax'
  obtain ⟨er, -, hr2⟩ := fl_eq_fin hfl
  have hav : ∀ v ∈ data, a ≤ v ∧ v ≤ b := by
    intro v hv
    have hvd := isDouble_flR_of_isDouble v (hd v hv)
    constructor
    · rw [ea, ← hvd]; exact flR_mono (by linarith [(hb v hv).1])
    · rw [eb, ← hvd]; exact flR_mono (by linarith [(hb v hv).2])
  refine ⟨a, b, hmin, hmax, er, hr2, ?_, hav⟩
  rw [er]
  have := hav m hmd
  exact flR_nonneg (by linarith)

/-- The `y` of a sample between `min` and `max`, for a finite non-zero
`range` and an integer surface height. -/
theorem lineY_value (h : ℕ) (hh : 64 ≤ h) (hh2 : h < 2 ^ 53) (data : List ℚ) (a b r v : ℚ)
    (hmin : lineMin data = Dbl.fin a) (hrange : lineRange data = Dbl.fin r)
    (er : r = flR (b - a)) (hr2 : r < 2 ^ 1024) (hr0 : 0 < r) (hav : a ≤ v) (hvb : v ≤ b) :
    lineY h data v = Dbl.fin (lineYR a r ((h : ℚ) - 64) v) ∧
      pad ≤ lineYR a r ((h : ℚ) - 64) v ∧ lineYR a r ((h : ℚ) - 64) v ≤ (h : ℚ) - pad := by
  have hH : (0 : ℚ) ≤ (h : ℚ) - 64 := by
    have : (64 : ℚ) ≤ h := by exact_mod_cast hh
    linarith
  have dH : IsDouble ((h : ℚ) - 64) := by
    have := isDouble_natCast_sub h 64 hh2 (by norm_num)
    simpa using this
  have dT : IsDouble ((h : ℚ) - 32) := by
    have := isDouble_natCast_sub h 32 hh2 (by norm_num)
    simpa using this
  have d32 : IsDouble 32 := isDouble_ofNat_small 32 32 (by norm_num) (by norm_num)
  have d64 : IsDouble 64 := isDouble_ofNat_small 64 64 (by norm_num) (by norm_num)
  -- v - min
  have c0 : 0 ≤ flR (v - a) := flR_nonneg (by linarith)
  have c1 : flR (v - a) ≤ r := by rw [er]; exact flR_mono (by linarith)
  have s1 : fl (v - a) = Dbl.fin (flR (v - a)) :=
    fl_fin_of_lt _ (by linarith [show (0 : ℚ) < 2 ^ 1024 by norm_num]) (by linarith)
  -- the fraction
  have f0 : 0 ≤ flR (v - a) / r := div_nonneg c0 hr0.le
  have f1 : flR (v - a) / r ≤ 1 := (div_le_one hr0).mpr c1
  obtain ⟨s2, t0, t1⟩ := fl_between _ 0 1 isDouble_zero isDouble_one f0 f1
  -- one minus the fraction
  obtain ⟨s3, u0, u1⟩ := fl_between (1 - flR (flR (v - a) / r)) 0 1 isDouble_zero isDouble_one
    (by linarith) (by linarith)
  -- times the plot height
  obtain ⟨s4, p0, p1⟩ := fl_between (flR (1 - flR (flR (v - a) / r)) * ((h : ℚ) - 64)) 0
    ((h : ℚ) - 64) isDouble_zero dH (mul_nonneg u0 hH)
    (by calc flR (1 - flR (flR (v - a) / r)) * ((h : ℚ) - 64) ≤ 1 * ((h : ℚ) - 64) :=
          mul_le_mul_of_nonneg_right u1 hH
        _ = (h : ℚ) - 64 := one_mul _)
  -- plus the padding
  obtain ⟨s5, y0, y1⟩ := fl_between
    (32 + flR (flR (1 - flR (flR (v - a) / r)) * ((h : ℚ) - 64))) 32 ((h : ℚ) - 32) d32 dT
    (by linarith) (by linarith)
  refine ⟨?_, ?_, ?_⟩
  · have e64 : dMul (Dbl.fin pad) (Dbl.fin 2) = Dbl.fin 64 := by
      show fl (pad * 2) = _
      have : pad * 2 = 64 := by norm_num [pad]
      rw [this]; exact d64
    have eH : dSub (Dbl.fin (h : ℚ)) (Dbl.fin 64) = Dbl.fin ((h : ℚ) - 64) := dH
    unfold lineY lineFrac
    rw [hmin, hrange, e64, eH]
    show dAdd (Dbl.fin pad) (dMul (dSub (Dbl.fin 1) (dDiv (fl (v - a)) (Dbl.fin r)))
      (Dbl.fin ((h : ℚ) - 64))) = _
    rw [s1]
    show dAdd (Dbl.fin pad) (dMul (dSub (Dbl.fin 1)
      (if r = 0 then _ else fl (flR (v - a) / r))) (Dbl.fin ((h : ℚ) - 64))) = _
    rw [if_neg hr0.ne', s2]
    show dAdd (Dbl.fin pad) (dMul (fl (1 - flR (flR (v - a) / r))) (Dbl.fin ((h : ℚ) - 64))) = _
    rw [s3]
    show dAdd (Dbl.fin pad) (fl (flR (1 - flR (flR (v - a) / r)) * ((h : ℚ) - 64))) = _
    rw [s4]
    show fl (pad + flR (flR (1 - flR (flR (v - a) / r)) * ((h : ℚ) - 64))) = _
    unfold lineYR
    have hp : pad = 32 := rfl
    rw [hp, s5]
  · unfold lineYR
    have hp : pad = 32 := rfl
    rw [hp]; exact y0
  · unfold lineYR
    have hp : pad = 32 := rfl
    rw [hp]; linarith

theorem fl_nat (n : ℕ) (hn : n < 2 ^ 53) : fl (n : ℚ) = Dbl.fin n := isDouble_natCast n hn

theorem linePts_get (w h : ℚ) (data : List ℚ) (i : ℕ) (hi : i < data.length) :
    (linePts w h data)[i]? = some { x := lineX w data i, y := lineY h data data[i] } := by
  simp [linePts, List.getElem?_mapIdx, hi]

theorem sparkPts_get (w h : ℚ) (arr : List ℚ) (i : ℕ) (hi : i < arr.length) :
    (sparkPts w h arr)[i]? = some { x := sparkX w arr i, y := sparkY h arr arr[i] } := by
  simp [sparkPts, List.getElem?_mapIdx, hi]

/-- The `y` of a sample when the result of every operation is known. -/
theorem lineY_steps (h : ℚ) (data : List ℚ) (v a r ph c t u p y : ℚ)
    (hmin : lineMin data = Dbl.fin a) (hrange : lineRange data = Dbl.fin r) (hr0 : r ≠ 0)
    (hph : dSub (Dbl.fin h) (dMul (Dbl.fin pad) (Dbl.fin 2)) = Dbl.fin ph)
    (h1 : fl (v - a) = Dbl.fin c) (h2 : fl (c / r) = Dbl.fin t) (h3 : fl (1 - t) = Dbl.fin u)
    (h4 : fl (u * ph) = Dbl.fin p) (h5 : fl (pad + p) = Dbl.fin y) :
    lineY h data v = Dbl.fin y := by
  unfold lineY lineFrac
  rw [hmin, hrange, hph]
  show dAdd (Dbl.fin pad) (dMul (dSub (Dbl.fin 1) (dDiv (fl (v - a)) (Dbl.fin r)))
    (Dbl.fin ph)) = _
  rw [h1]
  show dAdd (Dbl.fin pad) (dMul (dSub (Dbl.fin 1)
    (if r = 0 then _ else fl (c / r))) (Dbl.fin ph)) = _
  rw [if_neg hr0, h2]
  show dAdd (Dbl.fin pad) (dMul (fl (1 - t)) (Dbl.fin ph)) = _
  rw [h3]
  show dAdd (Dbl.fin pad) (fl (u * ph)) = _
  rw [h4]
  exact h5

theorem plotHeight_150 :
    dSub (Dbl.fin 150) (dMul (Dbl.fin pad) (Dbl.fin 2)) = Dbl.fin 86 := by
  have e64 : dMul (Dbl.fin pad) (Dbl.fin 2) = Dbl.fin 64 := by
    show fl (pad * 2) = _
    have := fl_nat 64 (by norm_num)
    norm_num [pad] at this ⊢
    exact this
  rw [e64]
  show fl (150 - 64) = _
  have := fl_nat 86 (by norm_num)
  norm_num at this ⊢
  exact this

theorem sampleSeries_min : mathMin sampleSeries = some 70 := by
  norm_num [mathMin, sampleSeries]

theorem sampleSeries_max : mathMax sampleSeries = some 80 := by
  norm_num [mathMax, sampleSeries]

theorem sampleSeries_doubles : ∀ v ∈ sampleSeries, IsDouble v := by
  intro v hv
  simp only [sampleSeries, List.mem_cons, List.mem_singleton, List.not_mem_nil, or_false] at hv
  rcases hv with rfl | rfl | rfl | rfl | rfl
  · exact isDouble_ofNat_small 70 70 (by norm_num) (by norm_num)
  · exact isDouble_ofNat_small 75 75 (by norm_num) (by norm_num)
  · exact isDouble_ofNat_small 80 80 (by norm_num) (by norm_num)
  · exact isDouble_ofNat_small 75 75 (by norm_num) (by norm_num)
  · exact isDouble_ofNat_small 70 70 (by norm_num) (by norm_num)

theorem sampleSeries_lineMin : lineMin sampleSeries = Dbl.fin 64 := by
  have e : lineMin sampleSeries = fl (70 - 6) := by
    simp [lineMin, mathMinD, sampleSeries_min, dSub]
  rw [e]
  have := fl_nat 64 (by norm_num)
  norm_num at this ⊢
  exact this

theorem sampleSeries_lineMax : lineMax sampleSeries = Dbl.fin 86 := by
  have e : lineMax sampleSeries = fl (80 + 6) := by
    simp [lineMax, mathMaxD, sampleSeries_max, dAdd]
  rw [e]
  have := fl_nat 86 (by norm_num)
  norm_num at this ⊢
  exact this

theorem sampleSeries_lineRange : lineRange sampleSeries = Dbl.fin 22 := by
  unfold lineRange
  rw [sampleSeries_lineMin, sampleSeries_lineMax]
  show fl (86 - 64) = _
  have := fl_nat 22 (by norm_num)
  norm_num at this ⊢
  exact this

/-- C1, amended. For a Series of at least two doubles for which the `range`
that `drawLineChart` computes is a finite non-zero number, and a surface whose
height is an integer from `2 * pad` on (below `2 ^ 32`, as canvas dimensions
are), `drawLineChart` computes one point per
sample and the vertical position of each is a finite number between `pad` and
`h - pad`. -/
theorem lineChart_y_within_padding (w : ℚ) (h : ℕ) (data : List ℚ) (r : ℚ)
    (hlen : 2 ≤ data.length) (hd : ∀ v ∈ data, IsDouble v) (hh : 64 ≤ h) (hh2 : h < 2 ^ 32)
    (hr : lineRange data = Dbl.fin r) (hr0 : r ≠ 0) :
    (linePts w h data).length = data.length ∧
      ∀ p ∈ linePts w h data, ∃ y, p.y = Dbl.fin y ∧ pad ≤ y ∧ y ≤ (h : ℚ) - pad := by
  refine ⟨by simp [linePts], ?_⟩
  intro p hp
  obtain ⟨a, b, hmin, -, er, hr2, hr1, hav⟩ :=
    line_setup data (ne_nil_of_two_le data hlen) hd r hr
  obtain ⟨i, hi, rfl⟩ := (mem_mapIdx_iff _ _ _).mp hp
  have hv := hav data[i] (List.getElem_mem hi)
  obtain ⟨e, y0, y1⟩ := lineY_value h hh (lt_trans hh2 (by norm_num)) data a b r data[i]
    hmin hr er hr2
    (lt_of_le_of_ne hr1 (Ne.symm hr0)) hv.1 hv.2
  exact ⟨_, e, y0, y1⟩

theorem lineChart_y_within_padding_witness :
    2 ≤ sampleSeries.length ∧ (∀ v ∈ sampleSeries, IsDouble v) ∧ 64 ≤ 150 ∧ 150 < 2 ^ 32 ∧
      lineRange sampleSeries = Dbl.fin 22 ∧ (22 : ℚ) ≠ 0 ∧
      (linePts 300 ((150 : ℕ) : ℚ) sampleSeries).length = sampleSeries.length ∧
      ∀ p ∈ linePts 300 ((150 : ℕ) : ℚ) sampleSeries,
        ∃ y, p.y = Dbl.fin y ∧ pad ≤ y ∧ y ≤ ((150 : ℕ) : ℚ) - pad :=
  ⟨by decide, sampleSeries_doubles, by norm_num, by norm_num, sampleSeries_lineRange,
    by norm_num,
    lineChart_y_within_padding 300 150 sampleSeries 22 (by decide) sampleSeries_doubles
      (by norm_num) (by norm_num) sampleSeries_lineRange (by norm_num)⟩

theorem linePts_map_y (w h : ℚ) (data : List ℚ) :
    (linePts w h data).map Point.y = data.map (lineY h data) := by
  apply List.ext_getElem?
  intro i
  by_cases hi : i < data.length
  · simp [List.getElem?_map, linePts_get w h data i hi, List.getElem?_eq_getElem hi]
  · have h1 : (linePts w h data).length ≤ i := by simp [linePts]; omega
    simp [List.getElem?_map, List.getElem?_eq_none h1,
      List.getElem?_eq_none (not_lt.mp hi)]

theorem sparkPts_map_y (w h : ℚ) (arr : List ℚ) :
    (sparkPts w h arr).map Point.y = arr.map (sparkY h arr) := by
  apply List.ext_getElem?
  intro i
  by_cases hi : i < arr.length
  · simp [List.getElem?_map, sparkPts_get w h arr i hi, List.getElem?_eq_getElem hi]
  · have h1 : (sparkPts w h arr).length ≤ i := by simp [sparkPts]; omega
    simp [List.getElem?_map, List.getElem?_eq_none h1,
      List.getElem?_eq_none (not_lt.mp hi)]

/-- The rounding of `x` from its binade and its nearest multiple of the unit
in the last place. -/
theorem fl_eval (x : ℚ) (L k : ℤ) (q : ℚ) (hL : -1022 ≤ L) (h1 : (2 : ℚ) ^ L ≤ |x|)
    (h2 : |x| < 2 ^ (L + 1)) (hk : |x / 2 ^ (L - 52) - k| < 1 / 2)
    (hq : (k : ℚ) * 2 ^ (L - 52) = q) (hb1 : -2 ^ 1024 < q) (hb2 : q < 2 ^ 1024) :
    fl x = Dbl.fin q := by
  have e := flR_eval x L k hL h1 h2 hk
  rw [hq] at e
  have := fl_fin_of_lt x (by rw [e]; exact hb1) (by rw [e]; exact hb2)
  rw [this, e]

theorem isDouble_two_pow_1023 : IsDouble (2 ^ 1023) :=
  isDouble_dyadic _ (2 ^ 52) 971 (by norm_num) (by norm_num) (by norm_num) (by norm_num)

theorem isDouble_neg_two_pow_1023 : IsDouble (-2 ^ 1023) :=
  isDouble_dyadic _ (-2 ^ 52) 971 (by norm_num) (by norm_num) (by norm_num) (by norm_num)

theorem fl_two_pow_1024 : fl (2 ^ 1024) = Dbl.pinf := by
  have e : flR (2 ^ 1024) = 2 ^ 1024 := by
    have := flR_dyadic 1 1024 (by norm_num) (by norm_num)
    simp only [Int.cast_one, one_mul, zpow_ofNat] at this
    exact this
  unfold fl
  rw [e, if_pos le_rfl]

theorem hugeSeries_min : mathMin hugeSeries = some (-2 ^ 1023) := by
  norm_num [mathMin, hugeSeries]

theorem hugeSeries_max : mathMax hugeSeries = some (2 ^ 1023) := by
  norm_num [mathMax, hugeSeries]

theorem hugeSeries_lineMin : lineMin hugeSeries = Dbl.fin (-2 ^ 1023) := by
  have e : lineMin hugeSeries = fl (-2 ^ 1023 - 6) := by
    simp [lineMin, mathMinD, hugeSeries_min, dSub]
  rw [e]
  have ha : |(-2 ^ 1023 - 6 : ℚ)| = 2 ^ 1023 + 6 := by
    rw [abs_of_neg (by norm_num)]; ring
  apply fl_eval _ 1023 (-2 ^ 52) _ (by norm_num)
  · rw [ha]; norm_num
  · rw [ha]; norm_num
  · have : ((-2 ^ 1023 - 6 : ℚ)) / 2 ^ ((1023 : ℤ) - 52) - ((-2 ^ 52 : ℤ) : ℚ)
        = -(6 / 2 ^ 971) := by norm_num
    rw [this, abs_neg, abs_of_pos (by norm_num)]
    norm_num
  · norm_num
  · norm_num
  · norm_num

theorem hugeSeries_lineMax : lineMax hugeSeries = Dbl.fin (2 ^ 1023) := by
  have e : lineMax hugeSeries = fl (2 ^ 1023 + 6) := by
    simp [lineMax, mathMaxD, hugeSeries_max, dAdd]
  rw [e]
  have ha : |(2 ^ 1023 + 6 : ℚ)| = 2 ^ 1023 + 6 := abs_of_pos (by norm_num)
  apply fl_eval _ 1023 (2 ^ 52) _ (by norm_num)
  · rw [ha]; norm_num
  · rw [ha]; norm_num
  · have : ((2 ^ 1023 + 6 : ℚ)) / 2 ^ ((1023 : ℤ) - 52) - ((2 ^ 52 : ℤ) : ℚ)
        = 6 / 2 ^ 971 := by norm_num
    rw [this, abs_of_pos (by norm_num)]
    norm_num
  · norm_num
  · norm_num
  · norm_num

theorem hugeSeries_lineRange : lineRange hugeSeries = Dbl.pinf := by
  unfold lineRange
  rw [hugeSeries_lineMin, hugeSeries_lineMax]
  show fl (2 ^ 1023 - -2 ^ 1023) = _
  have : (2 ^ 1023 - -2 ^ 1023 : ℚ) = 2 ^ 1024 := by norm_num
  rw [this, fl_two_pow_1024]

/-- C1 fails as stated: on the two doubles `-2 ^ 1023` and `2 ^ 1023` the
`range` of `drawLineChart` overflows to `Infinity`, and on a 300 by 150
surface the vertical positions are `118` and `NaN`. -/
theorem lineChart_y_not_finite :
    2 ≤ hugeSeries.length ∧ (∀ v ∈ hugeSeries, IsDouble v) ∧
      lineRange hugeSeries = Dbl.pinf ∧
      (linePts 300 150 hugeSeries).map Point.y = [Dbl.fin 118, Dbl.nan] := by
  refine ⟨by decide, ?_, hugeSeries_lineRange, ?_⟩
  · intro v hv
    simp only [hugeSeries, List.mem_cons, List.mem_singleton, List.not_mem_nil, or_false] at hv
    rcases hv with rfl | rfl
    · exact isDouble_neg_two_pow_1023
    · exact isDouble_two_pow_1023
  · rw [linePts_map_y]
    have y1 : lineY 150 hugeSeries (-2 ^ 1023) = Dbl.fin 118 := by
      unfold lineY lineFrac
      rw [hugeSeries_lineMin, hugeSeries_lineRange, plotHeight_150]
      show dAdd (Dbl.fin pad) (dMul (dSub (Dbl.fin 1)
        (dDiv (fl (-2 ^ 1023 - -2 ^ 1023)) Dbl.pinf)) (Dbl.fin 86)) = _
      rw [sub_self, fl_of_isDouble isDouble_zero]
      show dAdd (Dbl.fin pad) (dMul (fl (1 - 0)) (Dbl.fin 86)) = _
      rw [sub_zero, fl_of_isDouble isDouble_one]
      show dAdd (Dbl.fin pad) (fl (1 * 86)) = _
      have e86 : fl (1 * 86) = Dbl.fin 86 := by
        have := fl_nat 86 (by norm_num)
        norm_num at this ⊢
        exact this
      rw [e86]
      show fl (pad + 86) = _
      have := fl_nat 118 (by norm_num)
      norm_num [pad] at this ⊢
      exact this
    have y2 : lineY 150 hugeSeries (2 ^ 1023) = Dbl.nan := by
      unfold lineY lineFrac
      rw [hugeSeries_lineMin, hugeSeries_lineRange, plotHeight_150]
      show dAdd (Dbl.fin pad) (dMul (dSub (Dbl.fin 1)
        (dDiv (fl (2 ^ 1023 - -2 ^ 1023)) Dbl.pinf)) (Dbl.fin 86)) = _
      have : (2 ^ 1023 - -2 ^ 1023 : ℚ) = 2 ^ 1024 := by norm_num
      rw [this, fl_two_pow_1024]
      rfl
    simp only [hugeSeries, List.map_cons, List.map_nil]
    rw [show lineY 150 [-2 ^ 1023, 2 ^ 1023] (-2 ^ 1023) = Dbl.fin 118 from y1,
      show lineY 150 [-2 ^ 1023, 2 ^ 1023] (2 ^ 1023) = Dbl.nan from y2]

/-- A binary64 value given as `m * 2 ^ e` is the rounding of what equals it. -/
theorem fl_exact (x q : ℚ) (m e : ℤ) (hx : x = q) (hq : q = (m : ℚ) * 2 ^ e)
    (hm : |m| < 2 ^ 53) (he : -1074 ≤ e) (he2 : e ≤ 971) : fl x = Dbl.fin q := by
  rw [hx]
  exact isDouble_dyadic q m e hq hm he he2

theorem flR_le_of_le {x d : ℚ} (hd : IsDouble d) (h : x ≤ d) : flR x ≤ d := by
  have := flR_mono h
  rwa [isDouble_flR_of_isDouble d hd] at this

theorem le_flR_of_le {x d : ℚ} (hd : IsDouble d) (h : d ≤ x) : d ≤ flR x := by
  have := flR_mono h
  rwa [isDouble_flR_of_isDouble d hd] at this

/-- The computed `y` does not increase with the sample. -/
theorem lineYR_antitone (a r ph v1 v2 : ℚ) (hr : 0 < r) (hph : 0 ≤ ph) (h : v1 ≤ v2) :
    lineYR a r ph v2 ≤ lineYR a r ph v1 := by
  unfold lineYR
  have s1 : flR (v1 - a) ≤ flR (v2 - a) := flR_mono (by linarith)
  have s2 : flR (flR (v1 - a) / r) ≤ flR (flR (v2 - a) / r) :=
    flR_mono (div_le_div_of_nonneg_right s1 hr.le)
  have s3 : flR (1 - flR (flR (v2 - a) / r)) ≤ flR (1 - flR (flR (v1 - a) / r)) :=
    flR_mono (by linarith)
  have s4 : flR (flR (1 - flR (flR (v2 - a) / r)) * ph)
      ≤ flR (flR (1 - flR (flR (v1 - a) / r)) * ph) :=
    flR_mono (mul_le_mul_of_nonneg_right s3 hph)
  exact flR_mono (by linarith)

theorem tinySeries_min : mathMin tinySeries = some 0 := by
  norm_num [mathMin, tinySeries]

theorem tinySeries_max : mathMax tinySeries = some 4 := by
  norm_num [mathMax, tinySeries]

theorem tinySeries_lineMin : lineMin tinySeries = Dbl.fin (-6) := by
  have e : lineMin tinySeries = fl (0 - 6) := by
    simp [lineMin, mathMinD, tinySeries_min, dSub]
  rw [e]
  exact fl_exact _ _ (-6) 0 (by norm_num) (by norm_num) (by norm_num) (by norm_num)
    (by norm_num)

theorem tinySeries_lineMax : lineMax tinySeries = Dbl.fin 10 := by
  have e : lineMax tinySeries = fl (4 + 6) := by
    simp [lineMax, mathMaxD, tinySeries_max, dAdd]
  rw [e]
  exact fl_exact _ _ 10 0 (by norm_num) (by norm_num) (by norm_num) (by norm_num)
    (by norm_num)

theorem tinySeries_lineRange : lineRange tinySeries = Dbl.fin 16 := by
  unfold lineRange
  rw [tinySeries_lineMin, tinySeries_lineMax]
  show fl (10 - -6) = _
  exact fl_exact _ _ 16 0 (by norm_num) (by norm_num) (by norm_num) (by norm_num)
    (by norm_num)

theorem tinySeries_doubles : ∀ v ∈ tinySeries, IsDouble v := by
  intro v hv
  simp only [tinySeries, List.mem_cons, List.mem_singleton, List.not_mem_nil, or_false] at hv
  rcases hv with rfl | rfl | rfl
  · exact isDouble_zero
  · exact isDouble_dyadic _ 1 (-70) (by norm_num [zpow_neg]) (by norm_num) (by norm_num)
      (by norm_num)
  · exact isDouble_ofNat_small 4 4 (by norm_num) (by norm_num)

/-- The sample `2 ^ (-70)` is absorbed by the subtraction of `min = -6`. -/
theorem tiny_absorbed : fl (1 / 2 ^ 70 - -6) = Dbl.fin 6 := by
  have ha : |(1 / 2 ^ 70 - -6 : ℚ)| = 1 / 2 ^ 70 + 6 := by
    rw [abs_of_pos (by norm_num)]; ring
  apply fl_eval _ 2 (6 * 2 ^ 50) _ (by norm_num)
  · rw [ha]; norm_num
  · rw [ha]; norm_num
  · have : ((1 / 2 ^ 70 - -6 : ℚ)) / 2 ^ ((2 : ℤ) - 52) - ((6 * 2 ^ 50 : ℤ) : ℚ)
        = 1 / 2 ^ 20 := by norm_num [zpow_neg]
    rw [this, abs_of_pos (by norm_num)]
    norm_num
  · norm_num [zpow_neg]
  · norm_num
  · norm_num

theorem tinySeries_y_low (v : ℚ) (hv : fl (v - -6) = Dbl.fin 6) :
    lineY 150 tinySeries v = Dbl.fin (343 / 4) :=
  lineY_steps 150 tinySeries v (-6) 16 86 6 (3 / 8) (5 / 8) (215 / 4) (343 / 4)
    tinySeries_lineMin tinySeries_lineRange (by norm_num) plotHeight_150 hv
    (fl_exact _ _ 3 (-3) (by norm_num) (by norm_num [zpow_neg]) (by norm_num) (by norm_num)
      (by norm_num))
    (fl_exact _ _ 5 (-3) (by norm_num) (by norm_num [zpow_neg]) (by norm_num) (by norm_num)
      (by norm_num))
    (fl_exact _ _ 215 (-2) (by norm_num) (by norm_num [zpow_neg]) (by norm_num) (by norm_num)
      (by norm_num))
    (fl_exact _ _ 343 (-2) (by norm_num [pad]) (by norm_num [zpow_neg]) (by norm_num)
      (by norm_num) (by norm_num))

theorem tinySeries_y_high : lineY 150 tinySeries 4 = Dbl.fin (257 / 4) :=
  lineY_steps 150 tinySeries 4 (-6) 16 86 10 (5 / 8) (3 / 8) (129 / 4) (257 / 4)
    tinySeries_lineMin tinySeries_lineRange (by norm_num) plotHeight_150
    (fl_exact _ _ 10 0 (by norm_num) (by norm_num) (by norm_num) (by norm_num) (by norm_num))
    (fl_exact _ _ 5 (-3) (by norm_num) (by norm_num [zpow_neg]) (by norm_num) (by norm_num)
      (by norm_num))
    (fl_exact _ _ 3 (-3) (by norm_num) (by norm_num [zpow_neg]) (by norm_num) (by norm_num)
      (by norm_num))
    (fl_exact _ _ 129 (-2) (by norm_num) (by norm_num [zpow_neg]) (by norm_num) (by norm_num)
      (by norm_num))
    (fl_exact _ _ 257 (-2) (by norm_num [pad]) (by norm_num [zpow_neg]) (by norm_num)
      (by norm_num) (by norm_num))

/-- C2 fails as stated: on the doubles `0`, `2 ^ (-70)` and `4` and a 300 by
150 surface the `range` is `16`, the second sample is larger than the first,
and both are drawn at `y = 343 / 4`, the subtraction of `min` having absorbed
their difference. -/
theorem lineChart_order_not_strict :
    2 ≤ tinySeries.length ∧ (∀ v ∈ tinySeries, IsDouble v) ∧
      lineRange tinySeries = Dbl.fin 16 ∧
      tinySeries[0]? = some 0 ∧ tinySeries[1]? = some (1 / 2 ^ 70) ∧ (0 : ℚ) < 1 / 2 ^ 70 ∧
      (linePts 300 150 tinySeries).map Point.y =
        [Dbl.fin (343 / 4), Dbl.fin (343 / 4), Dbl.fin (257 / 4)] := by
  refine ⟨by decide, tinySeries_doubles, tinySeries_lineRange, rfl, rfl, by norm_num, ?_⟩
  rw [linePts_map_y]
  have y0 : lineY 150 tinySeries 0 = Dbl.fin (343 / 4) :=
    tinySeries_y_low 0 (fl_exact _ _ 6 0 (by norm_num) (by norm_num) (by norm_num)
      (by norm_num) (by norm_num))
  have y1 : lineY 150 tinySeries (1 / 2 ^ 70) = Dbl.fin (343 / 4) :=
    tinySeries_y_low _ tiny_absorbed
  have e : tinySeries.map (lineY 150 tinySeries) =
      [lineY 150 tinySeries 0, lineY 150 tinySeries (1 / 2 ^ 70), lineY 150 tinySeries 4] := rfl
  rw [e, y0, y1, tinySeries_y_high]

theorem isDouble_eighths (q : ℚ) (n : ℤ) (hq : q = (n : ℚ) / 8) (hn : |n| < 2 ^ 53) :
    IsDouble q :=
  isDouble_dyadic q n (-3) (by rw [hq]; norm_num [zpow_neg]; ring) hn (by norm_num)
    (by norm_num)

/-- An upper bound of the computed `y` from a lower bound of the fraction. -/
theorem lineYR_le (a r ph v c tlo u1 p1 y1 : ℚ) (hc : flR (v - a) = c) (hph : 0 ≤ ph)
    (ht : tlo ≤ c / r) (dt : IsDouble tlo) (hu : 1 - tlo ≤ u1) (du : IsDouble u1)
    (hp : u1 * ph ≤ p1) (dp : IsDouble p1) (hy : pad + p1 ≤ y1) (dy : IsDouble y1) :
    lineYR a r ph v ≤ y1 := by
  unfold lineYR
  rw [hc]
  have t := le_flR_of_le dt ht
  have u : flR (1 - flR (c / r)) ≤ u1 := flR_le_of_le du (by linarith)
  have p : flR (flR (1 - flR (c / r)) * ph) ≤ p1 :=
    flR_le_of_le dp (le_trans (mul_le_mul_of_nonneg_right u hph) hp)
  exact flR_le_of_le dy (by linarith)

/-- A lower bound of the computed `y` from an upper bound of the fraction. -/
theorem lineYR_ge (a r ph v c thi u1 p1 y1 : ℚ) (hc : flR (v - a) = c) (hph : 0 ≤ ph)
    (ht : c / r ≤ thi) (dt : IsDouble thi) (hu : u1 ≤ 1 - thi) (du : IsDouble u1)
    (hp : p1 ≤ u1 * ph) (dp : IsDouble p1) (hy : y1 ≤ pad + p1) (dy : IsDouble y1) :
    y1 ≤ lineYR a r ph v := by
  unfold lineYR
  rw [hc]
  have t := flR_le_of_le dt ht
  have u : u1 ≤ flR (1 - flR (c / r)) := le_flR_of_le du (by linarith)
  have p : p1 ≤ flR (flR (1 - flR (c / r)) * ph) :=
    le_flR_of_le dp (le_trans hp (mul_le_mul_of_nonneg_right u hph))
  exact le_flR_of_le dy (by linarith)

theorem flR_small_int (x : ℚ) (n : ℤ) (hx : x = n) (hn : |n| < 2 ^ 53) : flR x = n := by
  rw [hx]
  exact isDouble_flR_of_isDouble _ (isDouble_int n hn)

/-- The three vertical positions of the Series `[70, 75, 80, 75, 70]` on a
surface of integer height above `2 * pad`. -/
theorem sampleSeries_ys (h : ℕ) (hh : 64 < h) (hh2 : h < 2 ^ 32) :
    lineY h sampleSeries 70 = Dbl.fin (lineYR 64 22 ((h : ℚ) - 64) 70) ∧
      lineY h sampleSeries 75 = Dbl.fin (lineYR 64 22 ((h : ℚ) - 64) 75) ∧
      lineY h sampleSeries 80 = Dbl.fin (lineYR 64 22 ((h : ℚ) - 64) 80) ∧
      lineYR 64 22 ((h : ℚ) - 64) 80 < lineYR 64 22 ((h : ℚ) - 64) 75 ∧
      lineYR 64 22 ((h : ℚ) - 64) 75 < lineYR 64 22 ((h : ℚ) - 64) 70 := by
  have hh3 : h < 2 ^ 53 := lt_trans hh2 (by norm_num)
  have hhz : (h : ℤ) < 4294967296 := by exact_mod_cast hh2
  have hhq : (64 : ℚ) < h := by exact_mod_cast hh
  have er : (22 : ℚ) = flR (86 - 64) :=
    (flR_small_int _ 22 (by norm_num) (by norm_num)).symm
  have val : ∀ v : ℚ, 64 ≤ v → v ≤ 86 →
      lineY h sampleSeries v = Dbl.fin (lineYR 64 22 ((h : ℚ) - 64) v) := fun v h1 h2 =>
    (lineY_value h hh.le hh3 sampleSeries 64 86 22 v sampleSeries_lineMin
      sampleSeries_lineRange er (by norm_num) (by norm_num) h1 h2).1
  have hph : (0 : ℚ) ≤ (h : ℚ) - 64 := by linarith
  have d38 : IsDouble (3 / 8) := isDouble_eighths _ 3 (by norm_num) (by norm_num)
  have d58 : IsDouble (5 / 8) := isDouble_eighths _ 5 (by norm_num) (by norm_num)
  have d48 : IsDouble (1 / 2) := isDouble_eighths _ 4 (by norm_num) (by norm_num)
  have dp3 : IsDouble (3 / 8 * ((h : ℚ) - 64)) :=
    isDouble_eighths _ (3 * ((h : ℤ) - 64)) (by push_cast; ring) (by rw [abs_lt]; omega)
  have dp4 : IsDouble (1 / 2 * ((h : ℚ) - 64)) :=
    isDouble_eighths _ (4 * ((h : ℤ) - 64)) (by push_cast; ring) (by rw [abs_lt]; omega)
  have dp5 : IsDouble (5 / 8 * ((h : ℚ) - 64)) :=
    isDouble_eighths _ (5 * ((h : ℤ) - 64)) (by push_cast; ring) (by rw [abs_lt]; omega)
  have dy3 : IsDouble (pad + 3 / 8 * ((h : ℚ) - 64)) :=
    isDouble_eighths _ (256 + 3 * ((h : ℤ) - 64)) (by unfold pad; push_cast; ring)
      (by rw [abs_lt]; omega)
  have dy4 : IsDouble (pad + 1 / 2 * ((h : ℚ) - 64)) :=
    isDouble_eighths _ (256 + 4 * ((h : ℤ) - 64)) (by unfold pad; push_cast; ring)
      (by rw [abs_lt]; omega)
  have dy5 : IsDouble (pad + 5 / 8 * ((h : ℚ) - 64)) :=
    isDouble_eighths _ (256 + 5 * ((h : ℤ) - 64)) (by unfold pad; push_cast; ring)
      (by rw [abs_lt]; omega)
  have c70 : flR (70 - 64) = 6 := flR_small_int _ 6 (by norm_num) (by norm_num)
  have c75 : flR (75 - 64) = 11 := flR_small_int _ 11 (by norm_num) (by norm_num)
  have c80 : flR (80 - 64) = 16 := flR_small_int _ 16 (by norm_num) (by norm_num)
  have y80 : lineYR 64 22 ((h : ℚ) - 64) 80 ≤ pad + 3 / 8 * ((h : ℚ) - 64) :=
    lineYR_le 64 22 _ 80 16 (5 / 8) (3 / 8) _ _ c80 hph (by norm_num) d58 (by norm_num) d38
      le_rfl dp3 le_rfl dy3
  have y75a : pad + 1 / 2 * ((h : ℚ) - 64) ≤ lineYR 64 22 ((h : ℚ) - 64) 75 :=
    lineYR_ge 64 22 _ 75 11 (1 / 2) (1 / 2) _ _ c75 hph (by norm_num) d48 (by norm_num) d48
      le_rfl dp4 le_rfl dy4
  have y75b : lineYR 64 22 ((h : ℚ) - 64) 75 ≤ pad + 1 / 2 * ((h : ℚ) - 64) :=
    lineYR_le 64 22 _ 75 11 (1 / 2) (1 / 2) _ _ c75 hph (by norm_num) d48 (by norm_num) d48
      le_rfl dp4 le_rfl dy4
  have y70 : pad + 5 / 8 * ((h : ℚ) - 64) ≤ lineYR 64 22 ((h : ℚ) - 64) 70 :=
    lineYR_ge 64 22 _ 70 6 (3 / 8) (5 / 8) _ _ c70 hph (by norm_num) d38 (by norm_num) d58
      le_rfl dp5 le_rfl dy5
  refine ⟨val 70 (by norm_num) (by norm_num), val 75 (by norm_num) (by norm_num),
    val 80 (by norm_num) (by norm_num), ?_, ?_⟩
  · linarith
  · linarith

/-- C2, amended. For a Series of at least two doubles for which the `range`
that `drawLineChart` computes is a finite non-zero number, and a surface whose
height is an integer above `2 * pad`, the points at any two indices `i`, `j`
have finite vertical positions, a sample that is not smaller is drawn not
lower (`Series[j] <= Series[i]` gives `y_i <= y_j`, the two positions
possibly being equal for different samples) and equal samples have equal
positions; on the Series `[70, 75, 80, 75, 70]` the positions are
`a, b, c, b, a` with `c < b < a`. -/
theorem lineChart_value_order (w : ℚ) (h : ℕ) (data : List ℚ) (r : ℚ)
    (hlen : 2 ≤ data.length) (hd : ∀ v ∈ data, IsDouble v) (hh : 64 < h) (hh2 : h < 2 ^ 32)
    (hr : lineRange data = Dbl.fin r) (hr0 : r ≠ 0) :
    (∀ i j (hi : i < data.length) (hj : j < data.length), ∃ yi yj,
        (linePts w h data)[i]? = some { x := lineX w data i, y := Dbl.fin yi } ∧
        (linePts w h data)[j]? = some { x := lineX w data j, y := Dbl.fin yj } ∧
        (data[j] ≤ data[i] → yi ≤ yj) ∧ (data[i] = data[j] → yi = yj)) ∧
      ∃ a b c, (linePts w h sampleSeries).map Point.y =
          [Dbl.fin a, Dbl.fin b, Dbl.fin c, Dbl.fin b, Dbl.fin a] ∧ c < b ∧ b < a := by
  have hh3 : h < 2 ^ 53 := lt_trans hh2 (by norm_num)
  constructor
  · intro i j hi hj
    obtain ⟨a, b, hmin, -, er, hr2, hr1, hav⟩ :=
      line_setup data (ne_nil_of_two_le data hlen) hd r hr
    have hrpos : 0 < r := lt_of_le_of_ne hr1 (Ne.symm hr0)
    have hvi := hav data[i] (List.getElem_mem hi)
    have hvj := hav data[j] (List.getElem_mem hj)
    obtain ⟨ei, -, -⟩ := lineY_value h hh.le hh3 data a b r data[i] hmin hr er hr2 hrpos
      hvi.1 hvi.2
    obtain ⟨ej, -, -⟩ := lineY_value h hh.le hh3 data a b r data[j] hmin hr er hr2 hrpos
      hvj.1 hvj.2
    have hph : (0 : ℚ) ≤ (h : ℚ) - 64 := by
      have : (64 : ℚ) < h := by exact_mod_cast hh
      linarith
    refine ⟨lineYR a r ((h : ℚ) - 64) data[i], lineYR a r ((h : ℚ) - 64) data[j], ?_, ?_, ?_, ?_⟩
    · rw [linePts_get w h data i hi, ei]
    · rw [linePts_get w h data j hj, ej]
    · intro hle
      exact lineYR_antitone a r _ _ _ hrpos hph hle
    · intro heq
      rw [heq]
  · obtain ⟨e70, e75, e80, h1, h2⟩ := sampleSeries_ys h hh hh2
    refine ⟨_, _, _, ?_, h1, h2⟩
    rw [linePts_map_y]
    have e : sampleSeries.map (lineY h sampleSeries) =
        [lineY h sampleSeries 70, lineY h sampleSeries 75, lineY h sampleSeries 80,
          lineY h sampleSeries 75, lineY h sampleSeries 70] := rfl
    rw [e, e70, e75, e80]

theorem lineChart_value_order_witness :
    2 ≤ sampleSeries.length ∧ (∀ v ∈ sampleSeries, IsDouble v) ∧ 64 < 150 ∧ 150 < 2 ^ 32 ∧
      lineRange sampleSeries = Dbl.fin 22 ∧ (22 : ℚ) ≠ 0 ∧
      ((∀ i j (hi : i < sampleSeries.length) (hj : j < sampleSeries.length), ∃ yi yj,
        (linePts 300 ((150 : ℕ) : ℚ) sampleSeries)[i]? =
          some { x := lineX 300 sampleSeries i, y := Dbl.fin yi } ∧
        (linePts 300 ((150 : ℕ) : ℚ) sampleSeries)[j]? =
          some { x := lineX 300 sampleSeries j, y := Dbl.fin yj } ∧
        (sampleSeries[j] ≤ sampleSeries[i] → yi ≤ yj) ∧
        (sampleSeries[i] = sampleSeries[j] → yi = yj)) ∧
      ∃ a b c, (linePts 300 ((150 : ℕ) : ℚ) sampleSeries).map Point.y =
          [Dbl.fin a, Dbl.fin b, Dbl.fin c, Dbl.fin b, Dbl.fin a] ∧ c < b ∧ b < a) :=
  ⟨by decide, sampleSeries_doubles, by norm_num, by norm_num, sampleSeries_lineRange,
    by norm_num,
    lineChart_value_order 300 150 sampleSeries 22 (by decide) sampleSeries_doubles
      (by norm_num) (by norm_num) sampleSeries_lineRange (by norm_num)⟩

/-! ## Constant Series -/

theorem isDouble_two_zpow (e : ℤ) (he : -1074 ≤ e) (he2 : e ≤ 971) : IsDouble (2 ^ e) :=
  isDouble_dyadic _ 1 e (by simp) (by norm_num) he he2

theorem isDouble_neg_two_zpow (e : ℤ) (he : -1074 ≤ e) (he2 : e ≤ 971) : IsDouble (-2 ^ e) :=
  isDouble_dyadic _ (-1) e (by simp) (by norm_num) he he2

/-- A rounded result of magnitude at most `2 ^ e` is finite and of magnitude
at most `2 ^ e`. -/
theorem fl_abs_le (x : ℚ) (e : ℤ) (he : -1074 ≤ e) (he2 : e ≤ 971) (h : |x| ≤ 2 ^ e) :
    fl x = Dbl.fin (flR x) ∧ |flR x| ≤ 2 ^ e := by
  rw [abs_le] at h
  obtain ⟨s, l, u⟩ := fl_between x (-2 ^ e) (2 ^ e) (isDouble_neg_two_zpow e he he2)
    (isDouble_two_zpow e he he2) h.1 h.2
  exact ⟨s, abs_le.mpr ⟨l, u⟩⟩

/-- The `stepX` of the line chart and of the sparkline, padding `pd = k`: the
rounded quotient of the integers `w - 2 * k` and `n - 1`. -/
theorem stepX_value (pd : ℚ) (k w n : ℕ) (hpd : pd = k) (hk : k ≤ 32) (hw : w < 2 ^ 32)
    (hn : 2 ≤ n) (hn2 : n < 2 ^ 32) :
    dDiv (dSub (Dbl.fin (w : ℚ)) (dMul (Dbl.fin pd) (Dbl.fin 2)))
        (dSub (Dbl.fin (n : ℚ)) (Dbl.fin 1)) =
      Dbl.fin (flR (((w : ℚ) - 2 * k) / ((n : ℚ) - 1))) ∧
      |flR (((w : ℚ) - 2 * k) / ((n : ℚ) - 1))| ≤ 2 ^ (32 : ℤ) := by
  have hwq : (w : ℚ) < 4294967296 := by exact_mod_cast hw
  have hkq : (k : ℚ) ≤ 32 := by exact_mod_cast hk
  have hk0 : (0 : ℚ) ≤ k := by positivity
  have hw0 : (0 : ℚ) ≤ w := by positivity
  have hn1 : (1 : ℚ) ≤ (n : ℚ) - 1 := by
    have : (2 : ℚ) ≤ n := by exact_mod_cast hn
    linarith
  have e1 : dMul (Dbl.fin pd) (Dbl.fin 2) = Dbl.fin (2 * (k : ℚ)) := by
    show fl (pd * 2) = _
    have := fl_nat (2 * k) (by omega)
    rw [hpd]
    push_cast at this
    rw [mul_comm]
    exact this
  have e2 : dSub (Dbl.fin (w : ℚ)) (Dbl.fin (2 * (k : ℚ))) = Dbl.fin ((w : ℚ) - 2 * k) := by
    have := isDouble_natCast_sub w (2 * k) (by omega) (by omega)
    push_cast at this
    exact this
  have e3 : dSub (Dbl.fin (n : ℚ)) (Dbl.fin 1) = Dbl.fin ((n : ℚ) - 1) := by
    have := isDouble_natCast_sub n 1 (by omega) (by norm_num)
    push_cast at this
    exact this
  have hq : |((w : ℚ) - 2 * k) / ((n : ℚ) - 1)| ≤ 2 ^ (32 : ℤ) := by
    rw [abs_div, abs_of_pos (by linarith : (0 : ℚ) < (n : ℚ) - 1)]
    have hnum : |(w : ℚ) - 2 * k| ≤ 2 ^ (32 : ℤ) := by
      rw [abs_le]; constructor <;> norm_num <;> linarith
    calc |(w : ℚ) - 2 * k| / ((n : ℚ) - 1) ≤ |(w : ℚ) - 2 * k| / 1 :=
          div_le_div_of_nonneg_left (abs_nonneg _) (by norm_num) hn1
      _ = |(w : ℚ) - 2 * k| := div_one _
      _ ≤ 2 ^ (32 : ℤ) := hnum
  obtain ⟨s, b⟩ := fl_abs_le _ 32 (by norm_num) (by norm_num) hq
  refine ⟨?_, b⟩
  rw [e1, e2, e3]
  show (if (n : ℚ) - 1 = 0 then _ else fl (((w : ℚ) - 2 * k) / ((n : ℚ) - 1))) = _
  rw [if_neg (by linarith), s]

/-- The horizontal position `pad + i * stepX` for a finite `stepX` of
magnitude at most `2 ^ 32` and an index below `2 ^ 32` is finite. -/
theorem padX_finite (pd s : ℚ) (k i : ℕ) (hpd : pd = k) (hk : k ≤ 32) (hi : i < 2 ^ 32)
    (hs : |s| ≤ 2 ^ (32 : ℤ)) :
    ∃ x, dAdd (Dbl.fin pd) (dMul (Dbl.fin (i : ℚ)) (Dbl.fin s)) = Dbl.fin x := by
  have hiq : (i : ℚ) < 4294967296 := by exact_mod_cast hi
  have hi0 : (0 : ℚ) ≤ i := by positivity
  have hkq : (k : ℚ) ≤ 32 := by exact_mod_cast hk
  have hk0 : (0 : ℚ) ≤ k := by positivity
  have hp : |(i : ℚ) * s| ≤ 2 ^ (64 : ℤ) := by
    rw [abs_mul, abs_of_nonneg hi0]
    calc (i : ℚ) * |s| ≤ 2 ^ (32 : ℤ) * 2 ^ (32 : ℤ) :=
          mul_le_mul (by norm_num; linarith) hs (abs_nonneg _) (by norm_num)
      _ = 2 ^ (64 : ℤ) := by norm_num
  obtain ⟨s1, b1⟩ := fl_abs_le _ 64 (by norm_num) (by norm_num) hp
  have hy : |pd + flR ((i : ℚ) * s)| ≤ 2 ^ (65 : ℤ) := by
    rw [abs_le] at b1 ⊢
    rw [hpd]
    constructor <;> norm_num at b1 ⊢ <;> linarith
  obtain ⟨s2, -⟩ := fl_abs_le _ 65 (by norm_num) (by norm_num) hy
  refine ⟨flR (pd + flR ((i : ℚ) * s)), ?_⟩
  show dAdd (Dbl.fin pd) (fl ((i : ℚ) * s)) = _
  rw [s1]
  exact s2

theorem lineX_finite (w : ℕ) (data : List ℚ) (i : ℕ) (hw : w < 2 ^ 32)
    (hlen : 2 ≤ data.length) (hlen2 : data.length < 2 ^ 32) (hi : i < data.length) :
    ∃ x, lineX w data i = Dbl.fin x := by
  obtain ⟨e, b⟩ := stepX_value pad 32 w data.length rfl le_rfl hw hlen hlen2
  unfold lineX lineStepX
  rw [e]
  exact padX_finite pad _ 32 i rfl le_rfl (lt_trans hi hlen2) b

theorem sparkX_finite (w : ℕ) (arr : List ℚ) (i : ℕ) (hw : w < 2 ^ 32)
    (hlen : 2 ≤ arr.length) (hlen2 : arr.length < 2 ^ 32) (hi : i < arr.length) :
    ∃ x, sparkX w arr i = Dbl.fin x := by
  obtain ⟨e, b⟩ := stepX_value sparkPad 6 w arr.length rfl (by norm_num) hw hlen hlen2
  unfold sparkX sparkStepX
  rw [e]
  exact padX_finite sparkPad _ 6 i rfl (by norm_num) (lt_trans hi hlen2) b

theorem isDouble_two_pow_57 : IsDouble (2 ^ 57) :=
  isDouble_dyadic _ 1 57 (by norm_num) (by norm_num) (by norm_num) (by norm_num)

theorem absorbingSeries_min : mathMin absorbingSeries = some (2 ^ 57) := by
  norm_num [mathMin, absorbingSeries]

theorem absorbingSeries_max : mathMax absorbingSeries = some (2 ^ 57) := by
  norm_num [mathMax, absorbingSeries]

theorem absorbingSeries_lineMin : lineMin absorbingSeries = Dbl.fin (2 ^ 57) := by
  have e : lineMin absorbingSeries = fl (2 ^ 57 - 6) := by
    simp [lineMin, mathMinD, absorbingSeries_min, dSub]
  rw [e]
  have ha : |(2 ^ 57 - 6 : ℚ)| = 2 ^ 57 - 6 := abs_of_pos (by norm_num)
  apply fl_eval _ 56 (2 ^ 53) _ (by norm_num)
  · rw [ha]; norm_num
  · rw [ha]; norm_num
  · have : ((2 ^ 57 - 6 : ℚ)) / 2 ^ ((56 : ℤ) - 52) - ((2 ^ 53 : ℤ) : ℚ) = -(3 / 8) := by
      norm_num
    rw [this, abs_neg, abs_of_pos (by norm_num)]
    norm_num
  · norm_num
  · norm_num
  · norm_num

theorem absorbingSeries_lineMax : lineMax absorbingSeries = Dbl.fin (2 ^ 57) := by
  have e : lineMax absorbingSeries = fl (2 ^ 57 + 6) := by
    simp [lineMax, mathMaxD, absorbingSeries_max, dAdd]
  rw [e]
  have ha : |(2 ^ 57 + 6 : ℚ)| = 2 ^ 57 + 6 := abs_of_pos (by norm_num)
  apply fl_eval _ 57 (2 ^ 52) _ (by norm_num)
  · rw [ha]; norm_num
  · rw [ha]; norm_num
  · have : ((2 ^ 57 + 6 : ℚ)) / 2 ^ ((57 : ℤ) - 52) - ((2 ^ 52 : ℤ) : ℚ) = 3 / 16 := by
      norm_num
    rw [this, abs_of_pos (by norm_num)]
    norm_num
  · norm_num
  · norm_num
  · norm_num

theorem absorbingSeries_lineRange : lineRange absorbingSeries = Dbl.fin 0 := by
  unfold lineRange
  rw [absorbingSeries_lineMin, absorbingSeries_lineMax]
  show fl (2 ^ 57 - 2 ^ 57) = _
  rw [sub_self]
  exact isDouble_zero

/-- C5 fails as stated: on the constant Series of the double `2 ^ 57` the
margins `- 6` and `+ 6` of `drawLineChart` are absorbed, its `range` is `0`
and every `y` is `0 / 0 = NaN`; and on the constant Series of `-6` the divisor
`max = Math.max(...data) + 6` of `drawBarChart` is `0` and the bar height is
not finite. -/
theorem constant_series_not_defined :
    2 ≤ absorbingSeries.length ∧ (∀ v ∈ absorbingSeries, v = 2 ^ 57) ∧ IsDouble (2 ^ 57) ∧
      lineRange absorbingSeries = Dbl.fin 0 ∧
      (linePts 300 150 absorbingSeries).map Point.y = [Dbl.nan, Dbl.nan] ∧
      barMax [-6, -6] = some 0 ∧ barH 150 [-6, -6] (-6) = none := by
  refine ⟨by decide, ?_, isDouble_two_pow_57, absorbingSeries_lineRange, ?_, ?_, ?_⟩
  · intro v hv
    simp only [absorbingSeries, List.mem_cons, List.mem_singleton, List.not_mem_nil,
      or_false, or_self] at hv
    exact hv
  · rw [linePts_map_y]
    have y : lineY 150 absorbingSeries (2 ^ 57) = Dbl.nan := by
      unfold lineY lineFrac
      rw [absorbingSeries_lineMin, absorbingSeries_lineRange, plotHeight_150]
      show dAdd (Dbl.fin pad) (dMul (dSub (Dbl.fin 1)
        (dDiv (fl (2 ^ 57 - 2 ^ 57)) (Dbl.fin 0))) (Dbl.fin 86)) = _
      rw [sub_self, fl_of_isDouble isDouble_zero]
      rfl
    have e : absorbingSeries.map (lineY 150 absorbingSeries) =
        [lineY 150 absorbingSeries (2 ^ 57), lineY 150 absorbingSeries (2 ^ 57)] := rfl
    rw [e, y]
  · norm_num [barMax, mathMax, jsAdd]
  · norm_num [barH, barMax, mathMax, jsAdd, jsDiv, jsMul]

theorem mathMin_const (data : List ℚ) (c : ℚ) (hne : data ≠ []) (hc : ∀ v ∈ data, v = c) :
    mathMin data = some c := by
  obtain ⟨m, M, hm, -, hmd, -, -⟩ := min_max_spec data hne
  rw [hm, hc m hmd]

theorem mathMax_const (data : List ℚ) (c : ℚ) (hne : data ≠ []) (hc : ∀ v ∈ data, v = c) :
    mathMax data = some c := by
  obtain ⟨m, M, -, hM, -, hMd, -⟩ := min_max_spec data hne
  rw [hM, hc M hMd]

/-- The plot height `h - pad * 2` of the line chart for an integer height. -/
theorem plotHeight_line (h : ℕ) (hh : h < 2 ^ 53) :
    dSub (Dbl.fin (h : ℚ)) (dMul (Dbl.fin pad) (Dbl.fin 2)) = Dbl.fin ((h : ℚ) - 64) := by
  have e64 : dMul (Dbl.fin pad) (Dbl.fin 2) = Dbl.fin 64 := by
    show fl (pad * 2) = _
    have := fl_nat 64 (by norm_num)
    norm_num [pad] at this ⊢
    exact this
  rw [e64]
  have := isDouble_natCast_sub h 64 hh (by norm_num)
  push_cast at this
  exact this

/-- The plot height `h - pad * 2` of the sparkline for an integer height. -/
theorem plotHeight_spark (h : ℕ) (hh : h < 2 ^ 53) :
    dSub (Dbl.fin (h : ℚ)) (dMul (Dbl.fin sparkPad) (Dbl.fin 2)) =
      Dbl.fin ((h : ℚ) - 12) := by
  have e12 : dMul (Dbl.fin sparkPad) (Dbl.fin 2) = Dbl.fin 12 := by
    show fl (sparkPad * 2) = _
    have := fl_nat 12 (by norm_num)
    norm_num [sparkPad] at this ⊢
    exact this
  rw [e12]
  have := isDouble_natCast_sub h 12 hh (by norm_num)
  push_cast at this
  exact this

/-- The `y` of a sparkline sample when the result of every operation is
known. -/
theorem sparkY_steps (h : ℚ) (arr : List ℚ) (v m r ph c t u p y : ℚ)
    (hmin : mathMinD arr = Dbl.fin m) (hrange : sparkRange arr = Dbl.fin r) (hr0 : r ≠ 0)
    (hph : dSub (Dbl.fin h) (dMul (Dbl.fin sparkPad) (Dbl.fin 2)) = Dbl.fin ph)
    (h1 : fl (v - m) = Dbl.fin c) (h2 : fl (c / r) = Dbl.fin t) (h3 : fl (1 - t) = Dbl.fin u)
    (h4 : fl (u * ph) = Dbl.fin p) (h5 : fl (sparkPad + p) = Dbl.fin y) :
    sparkY h arr v = Dbl.fin y := by
  unfold sparkY sparkFrac
  rw [hmin, hrange, hph]
  show dAdd (Dbl.fin sparkPad) (dMul (dSub (Dbl.fin 1) (dDiv (fl (v - m)) (Dbl.fin r)))
    (Dbl.fin ph)) = _
  rw [h1]
  show dAdd (Dbl.fin sparkPad) (dMul (dSub (Dbl.fin 1)
    (if r = 0 then _ else fl (c / r))) (Dbl.fin ph)) = _
  rw [if_neg hr0, h2]
  show dAdd (Dbl.fin sparkPad) (dMul (fl (1 - t)) (Dbl.fin ph)) = _
  rw [h3]
  show dAdd (Dbl.fin sparkPad) (fl (u * ph)) = _
  rw [h4]
  exact h5

theorem isDouble_halves (q : ℚ) (n : ℤ) (hq : q = (n : ℚ) / 2) (hn : |n| < 2 ^ 53) :
    IsDouble q :=
  isDouble_dyadic q n (-1) (by rw [hq]; norm_num [zpow_neg]; ring) hn (by norm_num)
    (by norm_num)

/-- C5, amended. On a Series of at least two (and fewer than `2 ^ 32`)
samples all equal to `c`, where `c - 6` and `c + 6` are doubles (as for every
integer `c` of magnitude below `2 ^ 52`), and a surface of integer width and
height below `2 ^ 32`: `drawLineChart` has range `12`, a non-zero divisor
`length - 1`, finite `x` and every `y` at mid-height `pad + (h - 2 * pad) / 2`;
`drawSparkline` has range `1`, finite `x` and every `y` at `h - 6`;
`drawBarChart` divides by the non-zero sample count and by
`max = c + 6`, which is zero exactly when `c = -6`: the bar heights are finite
when `c` is not `-6` and not finite when it is. -/
theorem constant_series_defined (w h : ℕ) (c : ℚ) (data : List ℚ) (hlen : 2 ≤ data.length)
    (hlen2 : data.length < 2 ^ 32) (hc : ∀ v ∈ data, v = c) (hc1 : IsDouble (c - 6))
    (hc2 : IsDouble (c + 6)) (hw : w < 2 ^ 32) (hh : h < 2 ^ 32) :
    (lineRange data = Dbl.fin 12 ∧ (data.length : ℚ) - 1 ≠ 0 ∧
      (linePts w h data).length = data.length ∧
      ∀ p ∈ linePts w h data,
        (∃ x, p.x = Dbl.fin x) ∧ p.y = Dbl.fin (pad + ((h : ℚ) - 2 * pad) / 2)) ∧
    (sparkRange data = Dbl.fin 1 ∧
      (sparkPts w h data).length = data.length ∧
      ∀ p ∈ sparkPts w h data,
        (∃ x, p.x = Dbl.fin x) ∧ p.y = Dbl.fin ((h : ℚ) - sparkPad)) ∧
    ((data.length : ℚ) ≠ 0 ∧ barMax data = some (c + 6) ∧
      (c ≠ -6 → ∀ v ∈ data, ∃ b, barH h data v = some b) ∧
      (c = -6 → ∀ v ∈ data, barH h data v = none)) := by
  have hne := ne_nil_of_two_le data hlen
  have hm := mathMin_const data c hne hc
  have hM := mathMax_const data c hne hc
  have hd := len_sub_one_ne_zero data hlen
  have hh3 : h < 2 ^ 53 := lt_trans hh (by norm_num)
  have hhz : (h : ℤ) < 4294967296 := by exact_mod_cast hh
  have hmin : lineMin data = Dbl.fin (c - 6) := by
    have : lineMin data = fl (c - 6) := by simp [lineMin, mathMinD, hm, dSub]
    rw [this]; exact hc1
  have hmax : lineMax data = Dbl.fin (c + 6) := by
    have : lineMax data = fl (c + 6) := by simp [lineMax, mathMaxD, hM, dAdd]
    rw [this]; exact hc2
  have d6 : fl (c - (c - 6)) = Dbl.fin 6 :=
    fl_exact _ _ 6 0 (by ring) (by norm_num) (by norm_num) (by norm_num) (by norm_num)
  have hrange : lineRange data = Dbl.fin 12 := by
    unfold lineRange
    rw [hmin, hmax]
    exact fl_exact _ _ 12 0 (by ring) (by norm_num) (by norm_num) (by norm_num) (by norm_num)
  have hminD : mathMinD data = Dbl.fin c := by simp [mathMinD, hm]
  have hmaxD : mathMaxD data = Dbl.fin c := by simp [mathMaxD, hM]
  have d0 : fl (c - c) = Dbl.fin 0 := by rw [sub_self]; exact isDouble_zero
  have hsrange : sparkRange data = Dbl.fin 1 := by
    unfold sparkRange
    rw [hminD, hmaxD]
    show dOrOne (fl (c - c)) = _
    rw [d0]
    simp [dOrOne]
  have dhalf : IsDouble (1 / 2) := isDouble_halves _ 1 (by norm_num) (by norm_num)
  refine ⟨⟨hrange, hd, by simp [linePts], ?_⟩, ⟨hsrange, by simp [sparkPts], ?_⟩, ?_⟩
  · intro p hp
    obtain ⟨i, hi, rfl⟩ := (mem_mapIdx_iff _ _ _).mp hp
    refine ⟨lineX_finite w data i hw hlen hlen2 hi, ?_⟩
    show lineY h data data[i] = _
    rw [hc data[i] (List.getElem_mem hi)]
    exact lineY_steps h data c (c - 6) 12 ((h : ℚ) - 64) 6 (1 / 2) (1 / 2)
      (1 / 2 * ((h : ℚ) - 64)) _ hmin hrange (by norm_num) (plotHeight_line h hh3) d6
      (fl_exact _ _ 1 (-1) (by norm_num) (by norm_num [zpow_neg]) (by norm_num)
        (by norm_num) (by norm_num))
      (fl_exact _ _ 1 (-1) (by norm_num) (by norm_num [zpow_neg]) (by norm_num)
        (by norm_num) (by norm_num))
      (fl_of_isDouble (isDouble_halves _ ((h : ℤ) - 64) (by push_cast; ring)
        (by rw [abs_lt]; omega)))
      (by
        have e : pad + 1 / 2 * ((h : ℚ) - 64) = pad + ((h : ℚ) - 2 * pad) / 2 := by
          unfold pad; ring
        rw [e]
        exact fl_of_isDouble (isDouble_halves _ (h : ℤ) (by unfold pad; push_cast; ring)
          (by rw [abs_lt]; omega)))
  · intro p hp
    obtain ⟨i, hi, rfl⟩ := (mem_mapIdx_iff _ _ _).mp hp
    refine ⟨sparkX_finite w data i hw hlen hlen2 hi, ?_⟩
    show sparkY h data data[i] = _
    rw [hc data[i] (List.getElem_mem hi)]
    have dph : IsDouble ((h : ℚ) - 12) := by
      have := isDouble_natCast_sub h 12 hh3 (by norm_num)
      push_cast at this
      exact this
    have dy : IsDouble ((h : ℚ) - sparkPad) := by
      have := isDouble_natCast_sub h 6 hh3 (by norm_num)
      push_cast at this
      exact this
    exact sparkY_steps h data c c 1 ((h : ℚ) - 12) 0 0 1 ((h : ℚ) - 12) _ hminD hsrange
      (by norm_num) (plotHeight_spark h hh3) d0
      (by rw [zero_div]; exact isDouble_zero) (by rw [sub_zero]; exact isDouble_one)
      (by rw [one_mul]; exact dph)
      (by
        have e : sparkPad + ((h : ℚ) - 12) = (h : ℚ) - sparkPad := by unfold sparkPad; ring
        rw [e]; exact dy)
  · have hlen0 : (data.length : ℚ) ≠ 0 := by
      have : (2 : ℚ) ≤ (data.length : ℚ) := by exact_mod_cast hlen
      intro h0; linarith
    have hbm : barMax data = some (c + 6) := by simp [barMax, hM, jsAdd]
    refine ⟨hlen0, hbm, ?_, ?_⟩
    · intro hne6 v _
      have : c + 6 ≠ 0 := fun h0 => hne6 (by linarith)
      exact ⟨_, by simp [barH, hbm, jsDiv, jsMul, this]; rfl⟩
    · intro he6 v _
      have : c + 6 = 0 := by rw [he6]; norm_num
      simp [barH, hbm, jsDiv, jsMul, this]

theorem constant_series_defined_witness :
    2 ≤ [(75 : ℚ), 75, 75].length ∧ [(75 : ℚ), 75, 75].length < 2 ^ 32 ∧
    (∀ v ∈ [(75 : ℚ), 75, 75], v = 75) ∧ IsDouble (75 - 6) ∧ IsDouble (75 + 6) ∧
    300 < 2 ^ 32 ∧ 150 < 2 ^ 32 ∧
    ((lineRange [75, 75, 75] = Dbl.fin 12 ∧ (([(75 : ℚ), 75, 75].length : ℕ) : ℚ) - 1 ≠ 0 ∧
      (linePts ((300 : ℕ) : ℚ) ((150 : ℕ) : ℚ) [75, 75, 75]).length =
        [(75 : ℚ), 75, 75].length ∧
      ∀ p ∈ linePts ((300 : ℕ) : ℚ) ((150 : ℕ) : ℚ) [75, 75, 75],
        (∃ x, p.x = Dbl.fin x) ∧ p.y = Dbl.fin (pad + (((150 : ℕ) : ℚ) - 2 * pad) / 2)) ∧
    (sparkRange [75, 75, 75] = Dbl.fin 1 ∧
      (sparkPts ((300 : ℕ) : ℚ) ((150 : ℕ) : ℚ) [75, 75, 75]).length =
        [(75 : ℚ), 75, 75].length ∧
      ∀ p ∈ sparkPts ((300 : ℕ) : ℚ) ((150 : ℕ) : ℚ) [75, 75, 75],
        (∃ x, p.x = Dbl.fin x) ∧ p.y = Dbl.fin (((150 : ℕ) : ℚ) - sparkPad)) ∧
    ((([(75 : ℚ), 75, 75].length : ℕ) : ℚ) ≠ 0 ∧ barMax [75, 75, 75] = some (75 + 6) ∧
      ((75 : ℚ) ≠ -6 → ∀ v ∈ [(75 : ℚ), 75, 75],
        ∃ b, barH ((150 : ℕ) : ℚ) [75, 75, 75] v = some b) ∧
      ((75 : ℚ) = -6 → ∀ v ∈ [(75 : ℚ), 75, 75],
        barH ((150 : ℕ) : ℚ) [75, 75, 75] v = none))) :=
  ⟨by decide, by norm_num, by simp,
    isDouble_ofNat_small _ 69 (by norm_num) (by norm_num),
    isDouble_ofNat_small _ 81 (by norm_num) (by norm_num), by norm_num, by norm_num,
    constant_series_defined 300 150 75 [75, 75, 75] (by decide) (by norm_num) (by simp)
      (isDouble_ofNat_small _ 69 (by norm_num) (by norm_num))
      (isDouble_ofNat_small _ 81 (by norm_num) (by norm_num)) (by norm_num) (by norm_num)⟩

/-! ## The sparkline in binary64 -/

theorem dOrOne_eq_fin {x : Dbl} {r : ℚ} (hx : x ≠ Dbl.nan) (h : dOrOne x = Dbl.fin r) :
    ∃ r0, x = Dbl.fin r0 ∧ r = if r0 = 0 then 1 else r0 := by
  cases x with
  | fin q =>
    refine ⟨q, rfl, ?_⟩
    by_cases hq : q = 0
    · simp [dOrOne, hq] at h ⊢; exact h.symm
    · simp [dOrOne, hq] at h ⊢; exact h.symm
  | pinf => simp [dOrOne] at h
  | ninf => simp [dOrOne] at h
  | nan => exact absurd rfl hx

theorem fl_ne_nan (x : ℚ) : fl x ≠ Dbl.nan := by
  unfold fl
  split_ifs <;> simp

/-- A positive number from `2 ^ (-1074)` on does not round to zero. -/
theorem flR_pos_of_ge (x : ℚ) (hx : (2 : ℚ) ^ (-1074 : ℤ) ≤ x) : 0 < flR x := by
  have hpos : 0 < x := lt_of_lt_of_le (two_zpow_pos _) hx
  have hax : |x| = x := abs_of_pos hpos
  have hlog : -1074 ≤ Int.log 2 |x| := by
    rw [hax]
    exact (Int.zpow_le_iff_le_log (b := 2) (by norm_num) hpos).mp (by simpa using hx)
  have hl := log_le_abs x hpos.ne'
  rw [hax] at hl
  have hE : ulpExp x ≤ Int.log 2 |x| := by
    unfold ulpExp
    exact max_le (by omega) hlog
  have := zpow_le_flR x (Int.log 2 |x|) hE (by rw [hax]; exact hl)
  exact lt_of_lt_of_le (two_zpow_pos _) this

/-- Every double is an integer multiple of `2 ^ (-1074)`. -/
theorem isDouble_grid (q : ℚ) (hq : IsDouble q) : ∃ k : ℤ, q = k * 2 ^ (-1074 : ℤ) := by
  have e := isDouble_flR_of_isDouble q hq
  obtain ⟨k, hk⟩ := zpow_grid (-1074) (ulpExp q) (ulpExp_ge q)
  have h1 : (roundNE (q / 2 ^ ulpExp q) : ℚ) * 2 ^ ulpExp q = q := e
  generalize roundNE (q / 2 ^ ulpExp q) = R at h1
  rw [hk] at h1
  exact ⟨R * k, by rw [← h1]; push_cast; ring⟩

/-- The difference of two distinct doubles does not round to zero. -/
theorem flR_sub_pos (m M : ℚ) (hm : IsDouble m) (hM : IsDouble M) (h : m < M) :
    0 < flR (M - m) := by
  obtain ⟨k1, e1⟩ := isDouble_grid m hm
  obtain ⟨k2, e2⟩ := isDouble_grid M hM
  have hp := two_zpow_pos (-1074)
  have hk : k1 < k2 := by
    have : (k1 : ℚ) * 2 ^ (-1074 : ℤ) < k2 * 2 ^ (-1074 : ℤ) := by rw [← e1, ← e2]; exact h
    have := lt_of_mul_lt_mul_right this hp.le
    exact_mod_cast this
  apply flR_pos_of_ge
  have h1 : (1 : ℚ) ≤ (k2 : ℚ) - k1 := by
    have : k1 + 1 ≤ k2 := hk
    have : ((k1 + 1 : ℤ) : ℚ) ≤ k2 := by exact_mod_cast this
    push_cast at this
    linarith
  calc (2 : ℚ) ^ (-1074 : ℤ) = 1 * 2 ^ (-1074 : ℤ) := (one_mul _).symm
    _ ≤ ((k2 : ℚ) - k1) * 2 ^ (-1074 : ℤ) := mul_le_mul_of_nonneg_right h1 hp.le
    _ = M - m := by rw [e1, e2]; ring

/-- What a finite `range` of `drawSparkline` says of `min` and `max`. -/
theorem spark_setup (arr : List ℚ) (hne : arr ≠ []) (r : ℚ)
    (hr : sparkRange arr = Dbl.fin r) :
    ∃ m M, mathMin arr = some m ∧ mathMax arr = some M ∧ m ∈ arr ∧ M ∈ arr ∧
      (∀ v ∈ arr, m ≤ v ∧ v ≤ M) ∧ mathMinD arr = Dbl.fin m ∧
      r = (if flR (M - m) = 0 then 1 else flR (M - m)) ∧ 0 ≤ flR (M - m) ∧
      flR (M - m) ≤ r ∧ 0 < r ∧ r < 2 ^ 1024 := by
  obtain ⟨m, M, hm, hM, hmd, hMd, hb⟩ := min_max_spec arr hne
  have hminD : mathMinD arr = Dbl.fin m := by simp [mathMinD, hm]
  have hmaxD : mathMaxD arr = Dbl.fin M := by simp [mathMaxD, hM]
  have e : sparkRange arr = dOrOne (fl (M - m)) := by
    unfold sparkRange
    rw [hminD, hmaxD]
    rfl
  rw [e] at hr
  obtain ⟨r0, h0, hr0⟩ := dOrOne_eq_fin (fl_ne_nan _) hr
  obtain ⟨e0, -, u0⟩ := fl_eq_fin h0
  have hnn : 0 ≤ flR (M - m) := flR_nonneg (by linarith [(hb m hmd).2])
  rw [e0] at hr0 u0
  refine ⟨m, M, hm, hM, hmd, hMd, hb, hminD, hr0, hnn, ?_, ?_, ?_⟩
  · rw [hr0]; split_ifs with hz
    · rw [hz]; norm_num
    · exact le_rfl
  · rw [hr0]; split_ifs with hz
    · norm_num
    · exact lt_of_le_of_ne hnn (Ne.symm hz)
  · rw [hr0]; split_ifs with hz
    · norm_num
    · exact u0

/-- The fraction and the `y` of a sparkline sample whose rounded distance to
`min` is between `0` and a finite positive `range`, for an integer surface
height from `2 * pad` on. -/
theorem sparkY_value (h : ℕ) (hh : 12 ≤ h) (hh2 : h < 2 ^ 53) (arr : List ℚ) (m r v : ℚ)
    (hmin : mathMinD arr = Dbl.fin m) (hrange : sparkRange arr = Dbl.fin r) (hr0 : 0 < r)
    (hr2 : r < 2 ^ 1024) (c0 : 0 ≤ flR (v - m)) (c1 : flR (v - m) ≤ r) :
    (sparkFrac arr v = Dbl.fin (flR (flR (v - m) / r)) ∧ 0 ≤ flR (flR (v - m) / r) ∧
      flR (flR (v - m) / r) ≤ 1) ∧
    ∃ y, sparkY h arr v = Dbl.fin y ∧ sparkPad ≤ y ∧ y ≤ (h : ℚ) - sparkPad := by
  have hH : (0 : ℚ) ≤ (h : ℚ) - 12 := by
    have : (12 : ℚ) ≤ h := by exact_mod_cast hh
    linarith
  have dH : IsDouble ((h : ℚ) - 12) := by
    have := isDouble_natCast_sub h 12 hh2 (by norm_num)
    push_cast at this
    exact this
  have dT : IsDouble ((h : ℚ) - 6) := by
    have := isDouble_natCast_sub h 6 hh2 (by norm_num)
    push_cast at this
    exact this
  have d6 : IsDouble 6 := isDouble_ofNat_small 6 6 (by norm_num) (by norm_num)
  have s1 : fl (v - m) = Dbl.fin (flR (v - m)) :=
    fl_fin_of_lt _ (by linarith [show (0 : ℚ) < 2 ^ 1024 by norm_num]) (by linarith)
  have f0 : 0 ≤ flR (v - m) / r := div_nonneg c0 hr0.le
  have f1 : flR (v - m) / r ≤ 1 := (div_le_one hr0).mpr c1
  obtain ⟨s2, t0, t1⟩ := fl_between _ 0 1 isDouble_zero isDouble_one f0 f1
  obtain ⟨s3, u0, u1⟩ := fl_between (1 - flR (flR (v - m) / r)) 0 1 isDouble_zero isDouble_one
    (by linarith) (by linarith)
  obtain ⟨s4, p0, p1⟩ := fl_between (flR (1 - flR (flR (v - m) / r)) * ((h : ℚ) - 12)) 0
    ((h : ℚ) - 12) isDouble_zero dH (mul_nonneg u0 hH)
    (by calc flR (1 - flR (flR (v - m) / r)) * ((h : ℚ) - 12) ≤ 1 * ((h : ℚ) - 12) :=
          mul_le_mul_of_nonneg_right u1 hH
        _ = (h : ℚ) - 12 := one_mul _)
  obtain ⟨s5, y0, y1⟩ := fl_between
    (6 + flR (flR (1 - flR (flR (v - m) / r)) * ((h : ℚ) - 12))) 6 ((h : ℚ) - 6) d6 dT
    (by linarith) (by linarith)
  have hfrac : sparkFrac arr v = Dbl.fin (flR (flR (v - m) / r)) := by
    unfold sparkFrac
    rw [hmin, hrange]
    show dDiv (fl (v - m)) (Dbl.fin r) = _
    rw [s1]
    show (if r = 0 then _ else fl (flR (v - m) / r)) = _
    rw [if_neg hr0.ne', s2]
  refine ⟨⟨hfrac, t0, t1⟩, flR (6 + flR (flR (1 - flR (flR (v - m) / r)) * ((h : ℚ) - 12))),
    ?_, ?_, ?_⟩
  · have hp : sparkPad = 6 := rfl
    exact sparkY_steps h arr v m r ((h : ℚ) - 12) _ _ _ _ _ hmin hrange hr0.ne'
      (plotHeight_spark h hh2) s1 s2 s3 s4 (by rw [hp]; exact s5)
  · have hp : sparkPad = 6 := rfl
    rw [hp]; exact y0
  · have hp : sparkPad = 6 := rfl
    rw [hp]; exact y1

/-- The first point of the sparkline is at `x = pad`. -/
theorem sparkX_first (w : ℕ) (arr : List ℚ) (hw : w < 2 ^ 32) (hlen : 2 ≤ arr.length)
    (hlen2 : arr.length < 2 ^ 32) : sparkX w arr 0 = Dbl.fin sparkPad := by
  obtain ⟨e, -⟩ := stepX_value sparkPad 6 w arr.length rfl (by norm_num) hw hlen hlen2
  unfold sparkX sparkStepX
  rw [e]
  show dAdd (Dbl.fin sparkPad) (fl (((0 : ℕ) : ℚ) * _)) = _
  rw [Nat.cast_zero, zero_mul, fl_of_isDouble isDouble_zero]
  show fl (sparkPad + 0) = _
  rw [add_zero]
  exact isDouble_ofNat_small _ 6 (by norm_num [sparkPad]) (by norm_num)

/-- The last point of the sparkline is within one unit of `x = w - pad`. -/
theorem sparkX_last (w : ℕ) (arr : List ℚ) (hw : w < 2 ^ 32) (hlen : 2 ≤ arr.length)
    (hlen2 : arr.length < 2 ^ 32) :
    ∃ x, sparkX w arr (arr.length - 1) = Dbl.fin x ∧ |x - ((w : ℚ) - sparkPad)| ≤ 1 := by
  obtain ⟨e, -⟩ := stepX_value sparkPad 6 w arr.length rfl (by norm_num) hw hlen hlen2
  have hwz : (w : ℤ) < 4294967296 := by exact_mod_cast hw
  have hwq : (w : ℚ) < 4294967296 := by exact_mod_cast hw
  have hw0 : (0 : ℚ) ≤ w := by positivity
  have hnq : (arr.length : ℚ) < 4294967296 := by exact_mod_cast hlen2
  have hk1 : (1 : ℚ) ≤ (arr.length : ℚ) - 1 := by
    have : (2 : ℚ) ≤ (arr.length : ℚ) := by exact_mod_cast hlen
    linarith
  have hkpos : (0 : ℚ) < (arr.length : ℚ) - 1 := by linarith
  have hcast : ((arr.length - 1 : ℕ) : ℚ) = (arr.length : ℚ) - 1 := by
    rw [Nat.cast_sub (by omega)]; simp
  -- the product `(n - 1) * stepX` is within one of `w - 12`
  have hprod : |((arr.length : ℚ) - 1) * flR (((w : ℚ) - 2 * (6 : ℕ)) / ((arr.length : ℚ) - 1))
      - ((w : ℚ) - 12)| ≤ 1 := by
    have e12 : ((w : ℚ) - 2 * ((6 : ℕ) : ℚ)) = (w : ℚ) - 12 := by norm_num
    rw [e12]
    rcases eq_or_ne ((w : ℚ) - 12) 0 with hz | hz
    · rw [hz, zero_div, flR_zero]; norm_num
    · have hWabs : (1 : ℚ) ≤ |(w : ℚ) - 12| := by
        have hzi : (w : ℤ) - 12 ≠ 0 := by
          intro h0
          apply hz
          have : (((w : ℤ) - 12 : ℤ) : ℚ) = 0 := by rw [h0]; simp
          push_cast at this
          exact this
        have : (1 : ℤ) ≤ |(w : ℤ) - 12| := Int.one_le_abs hzi
        have : ((1 : ℤ) : ℚ) ≤ ((|(w : ℤ) - 12| : ℤ) : ℚ) := by exact_mod_cast this
        push_cast at this
        exact this
      have hWle : |(w : ℚ) - 12| ≤ 4294967296 := by
        rw [abs_le]; constructor <;> linarith
      have hq : (2 : ℚ) ^ (-1022 : ℤ) ≤ |((w : ℚ) - 12) / ((arr.length : ℚ) - 1)| := by
        rw [abs_div, abs_of_pos hkpos, le_div_iff₀ hkpos]
        have h1 : (2 : ℚ) ^ (-1022 : ℤ) ≤ 2 ^ (-32 : ℤ) :=
          zpow_le_zpow_right₀ (by norm_num) (by norm_num)
        have h2 : (2 : ℚ) ^ (-32 : ℤ) * ((arr.length : ℚ) - 1) ≤ 1 := by
          have : (2 : ℚ) ^ (-32 : ℤ) = 1 / 4294967296 := by norm_num [zpow_neg]
          rw [this]
          rw [div_mul_eq_mul_div, div_le_one (by norm_num)]
          linarith
        calc (2 : ℚ) ^ (-1022 : ℤ) * ((arr.length : ℚ) - 1)
            ≤ 2 ^ (-32 : ℤ) * ((arr.length : ℚ) - 1) :=
              mul_le_mul_of_nonneg_right h1 hkpos.le
          _ ≤ 1 := h2
          _ ≤ |(w : ℚ) - 12| := hWabs
      have herr := flR_rel_err _ hq
      rw [abs_div, abs_of_pos hkpos] at herr
      have hmul : ((arr.length : ℚ) - 1) *
          flR (((w : ℚ) - 12) / ((arr.length : ℚ) - 1)) - ((w : ℚ) - 12) =
          ((arr.length : ℚ) - 1) * (flR (((w : ℚ) - 12) / ((arr.length : ℚ) - 1))
            - ((w : ℚ) - 12) / ((arr.length : ℚ) - 1)) := by
        field_simp
        ring
      rw [hmul, abs_mul, abs_of_pos hkpos]
      calc ((arr.length : ℚ) - 1) * |flR (((w : ℚ) - 12) / ((arr.length : ℚ) - 1))
            - ((w : ℚ) - 12) / ((arr.length : ℚ) - 1)|
          ≤ ((arr.length : ℚ) - 1) * (|(w : ℚ) - 12| / ((arr.length : ℚ) - 1) / 2 ^ 53) :=
            mul_le_mul_of_nonneg_left herr hkpos.le
        _ = |(w : ℚ) - 12| / 2 ^ 53 := by
            field_simp
            ring
        _ ≤ 4294967296 / 2 ^ 53 := div_le_div_of_nonneg_right hWle (by norm_num)
        _ ≤ 1 := by norm_num
  rw [abs_le] at hprod
  have dlo : IsDouble ((w : ℚ) - 13) := by
    have := isDouble_int ((w : ℤ) - 13) (by rw [abs_lt]; omega)
    push_cast at this
    exact this
  have dhi : IsDouble ((w : ℚ) - 11) := by
    have := isDouble_int ((w : ℤ) - 11) (by rw [abs_lt]; omega)
    push_cast at this
    exact this
  obtain ⟨s1, l1, u1⟩ := fl_between _ _ _ dlo dhi
    (by linarith [hprod.1] : (w : ℚ) - 13 ≤ ((arr.length : ℚ) - 1) *
      flR (((w : ℚ) - 2 * (6 : ℕ)) / ((arr.length : ℚ) - 1)))
    (by linarith [hprod.2])
  have dlo2 : IsDouble ((w : ℚ) - 7) := by
    have := isDouble_int ((w : ℤ) - 7) (by rw [abs_lt]; omega)
    push_cast at this
    exact this
  have dhi2 : IsDouble ((w : ℚ) - 5) := by
    have := isDouble_int ((w : ℤ) - 5) (by rw [abs_lt]; omega)
    push_cast at this
    exact this
  obtain ⟨s2, l2, u2⟩ := fl_between
    (6 + flR (((arr.length : ℚ) - 1) *
      flR (((w : ℚ) - 2 * (6 : ℕ)) / ((arr.length : ℚ) - 1)))) _ _ dlo2 dhi2
    (by linarith) (by linarith)
  refine ⟨flR (6 + flR (((arr.length : ℚ) - 1) *
      flR (((w : ℚ) - 2 * (6 : ℕ)) / ((arr.length : ℚ) - 1)))), ?_, ?_⟩
  · unfold sparkX sparkStepX
    rw [e, hcast]
    show dAdd (Dbl.fin sparkPad) (fl (((arr.length : ℚ) - 1) * _)) = _
    rw [s1]
    exact s2
  · have hp : sparkPad = 6 := rfl
    rw [hp, abs_le]
    constructor <;> linarith

/-- C10, amended. For a Series of at least two (and fewer than `2 ^ 32`)
doubles for which the `range` that `drawSparkline` computes is finite, and a
surface of integer width and height below `2 ^ 32`, the height from `12` on:
`drawSparkline` normalises a sample against the bounds of the Series itself,
its fraction `(v - min) / range` is a finite number between `0` and `1`, `0`
at the minimum and `1` at the maximum when they differ, where `drawLineChart`
takes `min - 6` and `max + 6` for bounds; and its points are inset by its
padding `6`: the first has `x = 6`, the last has `x` within one unit of
`w - 6`, and every `y` lies between `6` and `h - 6`. -/
theorem sparkline_normalisation (w h : ℕ) (arr : List ℚ) (r : ℚ) (hlen : 2 ≤ arr.length)
    (hlen2 : arr.length < 2 ^ 32) (hd : ∀ v ∈ arr, IsDouble v) (hh : 12 ≤ h)
    (hh2 : h < 2 ^ 32) (hw : w < 2 ^ 32) (hr : sparkRange arr = Dbl.fin r) :
    ∃ m M, mathMin arr = some m ∧ mathMax arr = some M ∧
      (∀ v ∈ arr, ∃ f, sparkFrac arr v = Dbl.fin f ∧ 0 ≤ f ∧ f ≤ 1) ∧
      sparkFrac arr m = Dbl.fin 0 ∧ (m ≠ M → sparkFrac arr M = Dbl.fin 1) ∧
      lineMin arr = dSub (Dbl.fin m) (Dbl.fin 6) ∧
      lineMax arr = dAdd (Dbl.fin M) (Dbl.fin 6) ∧
      (∃ y, (sparkPts w h arr)[0]? = some { x := Dbl.fin sparkPad, y := Dbl.fin y }) ∧
      (∃ x y, (sparkPts w h arr)[arr.length - 1]? = some { x := Dbl.fin x, y := Dbl.fin y } ∧
        |x - ((w : ℚ) - sparkPad)| ≤ 1) ∧
      ∀ p ∈ sparkPts w h arr, ∃ y, p.y = Dbl.fin y ∧ sparkPad ≤ y ∧ y ≤ (h : ℚ) - sparkPad := by
  have hne := ne_nil_of_two_le arr hlen
  have hh3 : h < 2 ^ 53 := lt_trans hh2 (by norm_num)
  obtain ⟨m, M, hm, hM, hmd, hMd, hb, hminD, hrdef, hnn, hle, hrpos, hr2⟩ :=
    spark_setup arr hne r hr
  have hval : ∀ v ∈ arr,
      (sparkFrac arr v = Dbl.fin (flR (flR (v - m) / r)) ∧ 0 ≤ flR (flR (v - m) / r) ∧
        flR (flR (v - m) / r) ≤ 1) ∧
      ∃ y, sparkY h arr v = Dbl.fin y ∧ sparkPad ≤ y ∧ y ≤ (h : ℚ) - sparkPad := by
    intro v hv
    have hbv := hb v hv
    exact sparkY_value h hh hh3 arr m r v hminD hr hrpos hr2 (flR_nonneg (by linarith))
      (le_trans (flR_mono (by linarith)) hle)
  refine ⟨m, M, hm, hM, ?_, ?_, ?_, ?_, ?_, ?_, ?_, ?_⟩
  · intro v hv
    obtain ⟨⟨e, f0, f1⟩, -⟩ := hval v hv
    exact ⟨_, e, f0, f1⟩
  · obtain ⟨⟨e, -, -⟩, -⟩ := hval m hmd
    rw [e, sub_self, flR_zero, zero_div, flR_zero]
  · intro hmM
    obtain ⟨⟨e, -, -⟩, -⟩ := hval M hMd
    have hlt : m < M := lt_of_le_of_ne (hb m hmd).2 hmM
    have hpos := flR_sub_pos m M (hd m hmd) (hd M hMd) hlt
    have hr' : r = flR (M - m) := by rw [hrdef, if_neg hpos.ne']
    rw [e, ← hr', div_self hrpos.ne', isDouble_flR_of_isDouble 1 isDouble_one]
  · simp [lineMin, mathMinD, hm]
  · simp [lineMax, mathMaxD, hM]
  · have h0 : 0 < arr.length := by omega
    obtain ⟨-, y, ey, -, -⟩ := hval arr[0] (List.getElem_mem h0)
    refine ⟨y, ?_⟩
    rw [sparkPts_get w h arr 0 h0, sparkX_first w arr hw hlen hlen2, ey]
  · have hl : arr.length - 1 < arr.length := by omega
    obtain ⟨-, y, ey, -, -⟩ := hval arr[arr.length - 1] (List.getElem_mem hl)
    obtain ⟨x, ex, hx⟩ := sparkX_last w arr hw hlen hlen2
    refine ⟨x, y, ?_, hx⟩
    rw [sparkPts_get w h arr _ hl, ex, ey]
  · intro p hp
    obtain ⟨i, hi, rfl⟩ := (mem_mapIdx_iff _ _ _).mp hp
    obtain ⟨-, y, ey, y0, y1⟩ := hval arr[i] (List.getElem_mem hi)
    exact ⟨y, ey, y0, y1⟩

theorem sampleSeries_sparkRange : sparkRange sampleSeries = Dbl.fin 10 := by
  unfold sparkRange
  have hminD : mathMinD sampleSeries = Dbl.fin 70 := by simp [mathMinD, sampleSeries_min]
  have hmaxD : mathMaxD sampleSeries = Dbl.fin 80 := by simp [mathMaxD, sampleSeries_max]
  rw [hminD, hmaxD]
  show dOrOne (fl (80 - 70)) = _
  have e : fl (80 - 70) = Dbl.fin 10 :=
    fl_exact _ _ 10 0 (by norm_num) (by norm_num) (by norm_num) (by norm_num) (by norm_num)
  rw [e]
  simp [dOrOne]

theorem sparkline_normalisation_witness :
    2 ≤ sampleSeries.length ∧ sampleSeries.length < 2 ^ 32 ∧
    (∀ v ∈ sampleSeries, IsDouble v) ∧ 12 ≤ 150 ∧ 150 < 2 ^ 32 ∧ 300 < 2 ^ 32 ∧
    sparkRange sampleSeries = Dbl.fin 10 ∧
    ∃ m M, mathMin sampleSeries = some m ∧ mathMax sampleSeries = some M ∧
      (∀ v ∈ sampleSeries, ∃ f, sparkFrac sampleSeries v = Dbl.fin f ∧ 0 ≤ f ∧ f ≤ 1) ∧
      sparkFrac sampleSeries m = Dbl.fin 0 ∧ (m ≠ M → sparkFrac sampleSeries M = Dbl.fin 1) ∧
      lineMin sampleSeries = dSub (Dbl.fin m) (Dbl.fin 6) ∧
      lineMax sampleSeries = dAdd (Dbl.fin M) (Dbl.fin 6) ∧
      (∃ y, (sparkPts ((300 : ℕ) : ℚ) ((150 : ℕ) : ℚ) sampleSeries)[0]? =
        some { x := Dbl.fin sparkPad, y := Dbl.fin y }) ∧
      (∃ x y, (sparkPts ((300 : ℕ) : ℚ) ((150 : ℕ) : ℚ) sampleSeries)[sampleSeries.length - 1]? =
          some { x := Dbl.fin x, y := Dbl.fin y } ∧
        |x - (((300 : ℕ) : ℚ) - sparkPad)| ≤ 1) ∧
      ∀ p ∈ sparkPts ((300 : ℕ) : ℚ) ((150 : ℕ) : ℚ) sampleSeries,
        ∃ y, p.y = Dbl.fin y ∧ sparkPad ≤ y ∧ y ≤ ((150 : ℕ) : ℚ) - sparkPad :=
  ⟨by decide, by norm_num [sampleSeries], sampleSeries_doubles, by norm_num, by norm_num,
    by norm_num, sampleSeries_sparkRange,
    sparkline_normalisation 300 150 sampleSeries 10 (by decide) (by norm_num [sampleSeries])
      sampleSeries_doubles (by norm_num) (by norm_num) (by norm_num) sampleSeries_sparkRange⟩

theorem dAdd_exact {a b q : ℚ} (e : a + b = q) (d : IsDouble q) :
    dAdd (Dbl.fin a) (Dbl.fin b) = Dbl.fin q := by
  show fl (a + b) = _
  rw [e]; exact d

theorem dSub_exact {a b q : ℚ} (e : a - b = q) (d : IsDouble q) :
    dSub (Dbl.fin a) (Dbl.fin b) = Dbl.fin q := by
  show fl (a - b) = _
  rw [e]; exact d

theorem dMul_exact {a b q : ℚ} (e : a * b = q) (d : IsDouble q) :
    dMul (Dbl.fin a) (Dbl.fin b) = Dbl.fin q := by
  show fl (a * b) = _
  rw [e]; exact d

theorem dDiv_exact {a b q : ℚ} (hb : b ≠ 0) (e : a / b = q) (d : IsDouble q) :
    dDiv (Dbl.fin a) (Dbl.fin b) = Dbl.fin q := by
  show (if b = 0 then _ else fl (a / b)) = _
  rw [if_neg hb, e]; exact d

theorem isDouble_small (q : ℚ) (n : ℕ) (hq : q = n) (hn : n < 2 ^ 53) : IsDouble q :=
  isDouble_ofNat_small q n hq hn

theorem pairSeries_min : mathMin pairSeries = some 0 := by
  norm_num [mathMin, pairSeries]

theorem pairSeries_max : mathMax pairSeries = some 12 := by
  norm_num [mathMax, pairSeries]

theorem pairSeries_len : ((pairSeries.length : ℕ) : ℚ) = 2 := by
  norm_num [pairSeries]

theorem pairSeries_sparkRange : sparkRange pairSeries = Dbl.fin 12 := by
  unfold sparkRange
  have hminD : mathMinD pairSeries = Dbl.fin 0 := by simp [mathMinD, pairSeries_min]
  have hmaxD : mathMaxD pairSeries = Dbl.fin 12 := by simp [mathMaxD, pairSeries_max]
  rw [hminD, hmaxD, dSub_exact (by norm_num) (isDouble_small 12 12 (by norm_num) (by norm_num))]
  simp [dOrOne]

theorem pairSeries_lineMin : lineMin pairSeries = Dbl.fin (-6) := by
  have hminD : mathMinD pairSeries = Dbl.fin 0 := by simp [mathMinD, pairSeries_min]
  unfold lineMin
  rw [hminD]
  exact dSub_exact (by norm_num) (isDouble_int (-6) (by norm_num))

theorem pairSeries_lineMax : lineMax pairSeries = Dbl.fin 18 := by
  have hmaxD : mathMaxD pairSeries = Dbl.fin 12 := by simp [mathMaxD, pairSeries_max]
  unfold lineMax
  rw [hmaxD]
  exact dAdd_exact (by norm_num) (isDouble_small 18 18 (by norm_num) (by norm_num))

theorem pairSeries_lineRange : lineRange pairSeries = Dbl.fin 24 := by
  unfold lineRange
  rw [pairSeries_lineMin, pairSeries_lineMax]
  exact dSub_exact (by norm_num) (isDouble_small 24 24 (by norm_num) (by norm_num))

theorem pairSeries_lineFrac_low : lineFrac pairSeries 0 = Dbl.fin (1 / 4) := by
  unfold lineFrac
  rw [pairSeries_lineMin, pairSeries_lineRange,
    dSub_exact (by norm_num : (0 : ℚ) - -6 = 6) (isDouble_small 6 6 (by norm_num) (by norm_num))]
  exact dDiv_exact (by norm_num) (by norm_num)
    (isDouble_eighths _ 2 (by norm_num) (by norm_num))

theorem pairSeries_lineFrac_high : lineFrac pairSeries 12 = Dbl.fin (3 / 4) := by
  unfold lineFrac
  rw [pairSeries_lineMin, pairSeries_lineRange,
    dSub_exact (by norm_num : (12 : ℚ) - -6 = 18)
      (isDouble_small 18 18 (by norm_num) (by norm_num))]
  exact dDiv_exact (by norm_num) (by norm_num)
    (isDouble_eighths _ 6 (by norm_num) (by norm_num))

theorem pairSeries_sparkStepX : sparkStepX 300 pairSeries = Dbl.fin 288 := by
  unfold sparkStepX
  rw [pairSeries_len,
    dMul_exact (by norm_num [sparkPad] : sparkPad * 2 = 12)
      (isDouble_small 12 12 (by norm_num) (by norm_num)),
    dSub_exact (by norm_num : (300 : ℚ) - 12 = 288)
      (isDouble_small 288 288 (by norm_num) (by norm_num)),
    dSub_exact (by norm_num : (2 : ℚ) - 1 = 1) isDouble_one]
  exact dDiv_exact (by norm_num) (by norm_num)
    (isDouble_small 288 288 (by norm_num) (by norm_num))

theorem plotHeight_spark_150 :
    dSub (Dbl.fin 150) (dMul (Dbl.fin sparkPad) (Dbl.fin 2)) = Dbl.fin 138 := by
  have := plotHeight_spark 150 (by norm_num)
  norm_num at this ⊢
  exact this

/-- C10 fails as stated: on the Series `[0, 12]` and a 300 by 150 surface the
sparkline normalises the sample `0` to `0` where the line chart normalises it
to `1 / 4`, and its points are `(6, 144)` and `(294, 6)`, inset by 6 on every
side, where the unpadded ones with the normalisation of the line chart are
`(0, 225 / 2)` and `(300, 75 / 2)`. -/
theorem sparkline_differs_from_spec :
    sparkFrac pairSeries 0 = Dbl.fin 0 ∧ lineFrac pairSeries 0 = Dbl.fin (1 / 4) ∧
      sparkPts 300 150 pairSeries =
        [⟨Dbl.fin 6, Dbl.fin 144⟩, ⟨Dbl.fin 294, Dbl.fin 6⟩] ∧
      specSparkPts 300 150 pairSeries =
        [⟨Dbl.fin 0, Dbl.fin (225 / 2)⟩, ⟨Dbl.fin 300, Dbl.fin (75 / 2)⟩] := by
  have hminD : mathMinD pairSeries = Dbl.fin 0 := by simp [mathMinD, pairSeries_min]
  have d0 := isDouble_zero
  have d1 := isDouble_one
  have d6 : IsDouble 6 := isDouble_small 6 6 (by norm_num) (by norm_num)
  have d138 : IsDouble 138 := isDouble_small 138 138 (by norm_num) (by norm_num)
  have d144 : IsDouble 144 := isDouble_small 144 144 (by norm_num) (by norm_num)
  have d288 : IsDouble 288 := isDouble_small 288 288 (by norm_num) (by norm_num)
  have d294 : IsDouble 294 := isDouble_small 294 294 (by norm_num) (by norm_num)
  have d300 : IsDouble 300 := isDouble_small 300 300 (by norm_num) (by norm_num)
  have f0 : sparkFrac pairSeries 0 = Dbl.fin 0 := by
    unfold sparkFrac
    rw [hminD, pairSeries_sparkRange, dSub_exact (by norm_num : (0 : ℚ) - 0 = 0) d0]
    exact dDiv_exact (by norm_num) (by norm_num) d0
  have x0 : sparkX 300 pairSeries 0 = Dbl.fin 6 := by
    unfold sparkX
    rw [pairSeries_sparkStepX,
      dMul_exact (by norm_num : (((0 : ℕ) : ℚ)) * 288 = 0) d0]
    exact dAdd_exact (by norm_num [sparkPad]) d6
  have x1 : sparkX 300 pairSeries 1 = Dbl.fin 294 := by
    unfold sparkX
    rw [pairSeries_sparkStepX,
      dMul_exact (by norm_num : (((1 : ℕ) : ℚ)) * 288 = 288) d288]
    exact dAdd_exact (by norm_num [sparkPad]) d294
  have y0 : sparkY 150 pairSeries 0 = Dbl.fin 144 :=
    sparkY_steps 150 pairSeries 0 0 12 138 0 0 1 138 144 hminD pairSeries_sparkRange
      (by norm_num) plotHeight_spark_150 (by rw [sub_zero]; exact d0)
      (by rw [zero_div]; exact d0) (by rw [sub_zero]; exact d1) (by rw [one_mul]; exact d138)
      (by
        have e : sparkPad + 138 = 144 := by norm_num [sparkPad]
        rw [e]; exact d144)
  have y1 : sparkY 150 pairSeries 12 = Dbl.fin 6 :=
    sparkY_steps 150 pairSeries 12 0 12 138 12 1 0 0 6 hminD pairSeries_sparkRange
      (by norm_num) plotHeight_spark_150
      (by rw [sub_zero]; exact isDouble_small 12 12 (by norm_num) (by norm_num))
      (by rw [div_self (by norm_num)]; exact d1) (by rw [sub_self]; exact d0)
      (by rw [zero_mul]; exact d0)
      (by
        have e : sparkPad + 0 = 6 := by norm_num [sparkPad]
        rw [e]; exact d6)
  have sx : dDiv (Dbl.fin 300) (dSub (Dbl.fin ((pairSeries.length : ℕ) : ℚ)) (Dbl.fin 1)) =
      Dbl.fin 300 := by
    rw [pairSeries_len, dSub_exact (by norm_num : (2 : ℚ) - 1 = 1) d1]
    exact dDiv_exact (by norm_num) (by norm_num) d300
  refine ⟨f0, pairSeries_lineFrac_low, ?_, ?_⟩
  · have e : sparkPts 300 150 pairSeries =
        [⟨sparkX 300 pairSeries 0, sparkY 150 pairSeries 0⟩,
          ⟨sparkX 300 pairSeries 1, sparkY 150 pairSeries 12⟩] := by
      simp [sparkPts, pairSeries]
    rw [e, x0, x1, y0, y1]
  · have e : specSparkPts 300 150 pairSeries =
        [⟨dMul (Dbl.fin ((0 : ℕ) : ℚ))
            (dDiv (Dbl.fin 300) (dSub (Dbl.fin ((pairSeries.length : ℕ) : ℚ)) (Dbl.fin 1))),
          dMul (dSub (Dbl.fin 1) (lineFrac pairSeries 0)) (Dbl.fin 150)⟩,
         ⟨dMul (Dbl.fin ((1 : ℕ) : ℚ))
            (dDiv (Dbl.fin 300) (dSub (Dbl.fin ((pairSeries.length : ℕ) : ℚ)) (Dbl.fin 1))),
          dMul (dSub (Dbl.fin 1) (lineFrac pairSeries 12)) (Dbl.fin 150)⟩] := by
      simp [specSparkPts, pairSeries]
    rw [e, sx, pairSeries_lineFrac_low, pairSeries_lineFrac_high,
      dMul_exact (by norm_num : (((0 : ℕ) : ℚ)) * 300 = 0) d0,
      dMul_exact (by norm_num : (((1 : ℕ) : ℚ)) * 300 = 300) d300,
      dSub_exact (by norm_num : (1 : ℚ) - 1 / 4 = 3 / 4)
        (isDouble_eighths _ 6 (by norm_num) (by norm_num)),
      dSub_exact (by norm_num : (1 : ℚ) - 3 / 4 = 1 / 4)
        (isDouble_eighths _ 2 (by norm_num) (by norm_num)),
      dMul_exact (by norm_num : (3 / 4 : ℚ) * 150 = 225 / 2)
        (isDouble_halves _ 225 (by norm_num) (by norm_num)),
      dMul_exact (by norm_num : (1 / 4 : ℚ) * 150 = 75 / 2)
        (isDouble_halves _ 75 (by norm_num) (by norm_num))]

end Portfolio
